import Mathlib

/-!
Shallow embedding of the foodcoop shift-calendar sync pipeline
(`main.py`): the Python string primitives it relies on, the shift data
model, the description encoding/decoding, the per-fragment shift parser,
and the pure core of the Google-calendar reconciliation.  Theorems below
settle the spec claims against these definitions.
-/

/-! ## Python string primitives

Python `str` methods used by the source, modelled on `List Char` /
`String`.  `str.strip()`/`split()` use Python's whitespace set;
`str.splitlines()` uses Python's line-boundary set; `str.lstrip(cs)` and
`str.rstrip(cs)` remove *characters belonging to the set* `cs`, not the
literal substring. -/

def pyIsSpace (c : Char) : Bool :=
  c.toNat = 0x20 || c.toNat = 0x09 || c.toNat = 0x0a || c.toNat = 0x0d ||
  c.toNat = 0x0b || c.toNat = 0x0c ||
  c.toNat = 0x1c || c.toNat = 0x1d || c.toNat = 0x1e || c.toNat = 0x1f ||
  c.toNat = 0x85 || c.toNat = 0xa0 || c.toNat = 0x1680 ||
  (0x2000 ≤ c.toNat && c.toNat ≤ 0x200a) ||
  c.toNat = 0x2028 || c.toNat = 0x2029 || c.toNat = 0x202f ||
  c.toNat = 0x205f || c.toNat = 0x3000

def pyIsLineBreak (c : Char) : Bool :=
  c.toNat = 0x0a || c.toNat = 0x0d || c.toNat = 0x0b || c.toNat = 0x0c ||
  c.toNat = 0x1c || c.toNat = 0x1d || c.toNat = 0x1e ||
  c.toNat = 0x85 || c.toNat = 0x2028 || c.toNat = 0x2029

/-- Python `s.strip()`: remove leading and trailing whitespace. -/
def pyStrip (s : String) : String :=
  String.mk (((s.data.dropWhile pyIsSpace).reverse.dropWhile pyIsSpace).reverse)

/-- Python `s.lstrip(chars)`: remove leading characters that are members
of the character set `chars`. -/
def pyLstripChars (s : String) (chars : String) : String :=
  String.mk (s.data.dropWhile (fun c => c ∈ chars.data))

/-- Python `s.rstrip(chars)`: remove trailing characters that are members
of the character set `chars`. -/
def pyRstripChars (s : String) (chars : String) : String :=
  String.mk ((s.data.reverse.dropWhile (fun c => c ∈ chars.data)).reverse)

/-- Python `s.startswith(p)`. -/
def pyStartsWith (s : String) (p : String) : Bool :=
  decide (p.data <+: s.data)

/-- Auxiliary for `pySplitlines`: `cur` is the current line, reversed;
`afterCR` records that the previous character was a line-ending `\r`, so
that an immediately following `\n` is part of the same boundary. -/
def pySplitlinesAux : List Char → List Char → Bool → List String
  | [], cur, _ => if cur = [] then [] else [String.mk cur.reverse]
  | c :: rest, cur, afterCR =>
      if afterCR && c = '\n' then pySplitlinesAux rest cur false
      else if c = '\r' then
        String.mk cur.reverse :: pySplitlinesAux rest [] true
      else if pyIsLineBreak c then
        String.mk cur.reverse :: pySplitlinesAux rest [] false
      else pySplitlinesAux rest (c :: cur) false

/-- Python `s.splitlines()`: split on line boundaries (`\r\n` counts as a
single boundary); a trailing empty segment is not emitted. -/
def pySplitlines (s : String) : List String :=
  pySplitlinesAux s.data [] false

/-- Auxiliary for `pySplit`: whitespace-delimited words; `cur` is the
current (possibly empty) word, reversed. -/
def pySplitAux : List Char → List Char → List String
  | [], cur => if cur = [] then [] else [String.mk cur.reverse]
  | c :: rest, cur =>
      if pyIsSpace c then
        if cur = [] then pySplitAux rest []
        else String.mk cur.reverse :: pySplitAux rest []
      else pySplitAux rest (c :: cur)

/-- Python `s.split()` (no separator): whitespace-delimited tokens, no
empty tokens. -/
def pySplit (s : String) : List String :=
  pySplitAux s.data []

/-- Python `s.split(maxsplit=1)` (no separator): at most two parts; the
separator run after the first token is consumed, the remainder is kept
verbatim; an all-whitespace remainder is dropped. -/
def pySplitMax1 (s : String) : List String :=
  match s.data.dropWhile pyIsSpace with
  | [] => []
  | cs =>
      let tok := cs.takeWhile (fun d => ¬ pyIsSpace d)
      let rest := (cs.dropWhile (fun d => ¬ pyIsSpace d)).dropWhile pyIsSpace
      if rest = [] then [String.mk tok] else [String.mk tok, String.mk rest]

/-- Python `s.rsplit(maxsplit=1)` (no separator): like `pySplitMax1` but
splitting from the right. -/
def pyRsplitMax1 (s : String) : List String :=
  match s.data.reverse.dropWhile pyIsSpace with
  | [] => []
  | cs =>
      let tok := cs.takeWhile (fun d => ¬ pyIsSpace d)
      let rest := (cs.dropWhile (fun d => ¬ pyIsSpace d)).dropWhile pyIsSpace
      if rest = [] then [String.mk tok.reverse]
      else [String.mk rest.reverse, String.mk tok.reverse]

/-- Python tuple unpacking `a, b = l`: succeeds exactly when `l` has two
elements (otherwise the source raises `ValueError`). -/
def unpack2 {α : Type} : List α → Option (α × α)
  | [a, b] => some (a, b)
  | _ => none

/-! ## Datetime model

`datetime.strptime(_, "%m/%d/%Y %I:%M%p")` modelled after CPython's
`_strptime` regex: each 1-2-digit numeric field tries its two-digit
alternatives first and backtracks to the one-digit alternative; `%Y` is
exactly four digits; whitespace in the format matches a run of
whitespace; `%p` is case-insensitive; the whole string must be consumed;
out-of-range dates (e.g. Feb 30) fail at `datetime` construction.  The
fixed `ZoneInfo("US/Eastern")` attached by the source is uniform across
all shifts and is omitted from the model. -/

structure PyDateTime where
  year : Nat
  month : Nat
  day : Nat
  hour : Nat
  minute : Nat
deriving DecidableEq, Repr

def digitVal (c : Char) : Nat := c.toNat - '0'.toNat

/-- A 1-2-digit numeric field of the CPython strptime regex:
the two-digit alternatives (accepted iff `valid2`) are tried before the
one-digit alternative (accepted iff `valid1`), backtracking through the
continuation `k`. -/
def parseField {α : Type} (valid2 valid1 : Nat → Bool)
    (k : Nat → List Char → Option α) : List Char → Option α
  | c1 :: c2 :: rest =>
      (if c1.isDigit && c2.isDigit && valid2 (10 * digitVal c1 + digitVal c2)
       then k (10 * digitVal c1 + digitVal c2) rest else none) <|>
      (if c1.isDigit && valid1 (digitVal c1)
       then k (digitVal c1) (c2 :: rest) else none)
  | [c1] =>
      if c1.isDigit && valid1 (digitVal c1) then k (digitVal c1) [] else none
  | [] => none

def expectChar {α : Type} (c : Char) (k : List Char → Option α) :
    List Char → Option α
  | d :: rest => if d = c then k rest else none
  | [] => none

/-- A whitespace run (`\s+`): the following fields start with a digit, so
greedy consumption is exact. -/
def expectSpaces {α : Type} (k : List Char → Option α) :
    List Char → Option α
  | d :: rest => if pyIsSpace d then k (rest.dropWhile pyIsSpace) else none
  | [] => none

def parse4Digits {α : Type} (k : Nat → List Char → Option α) :
    List Char → Option α
  | a :: b :: c :: d :: rest =>
      if a.isDigit && b.isDigit && c.isDigit && d.isDigit then
        k (1000 * digitVal a + 100 * digitVal b + 10 * digitVal c + digitVal d)
          rest
      else none
  | _ => none

/-- `%p` under `re.IGNORECASE`; `true` means PM. -/
def parseAmPm {α : Type} (k : Bool → List Char → Option α) :
    List Char → Option α
  | a :: b :: rest =>
      if (a = 'A' || a = 'a') && (b = 'M' || b = 'm') then k false rest
      else if (a = 'P' || a = 'p') && (b = 'M' || b = 'm') then k true rest
      else none
  | _ => none

def isLeapYear (y : Nat) : Bool :=
  y % 4 = 0 && (y % 100 ≠ 0 || y % 400 = 0)

def daysInMonth (y m : Nat) : Nat :=
  if m = 2 then (if isLeapYear y then 29 else 28)
  else if m = 4 || m = 6 || m = 9 || m = 11 then 30
  else 31

/-- `datetime.strptime(s, "%m/%d/%Y %I:%M%p")`: `none` exactly when the
source raises `ValueError`. -/
def strptime_mdy_imp (s : String) : Option PyDateTime :=
  parseField (fun v => 1 ≤ v && v ≤ 12) (fun v => 1 ≤ v && v ≤ 9) (fun month =>
  expectChar '/' (
  parseField (fun v => 1 ≤ v && v ≤ 31) (fun v => 1 ≤ v && v ≤ 9) (fun day =>
  expectChar '/' (
  parse4Digits (fun year =>
  expectSpaces (
  parseField (fun v => 1 ≤ v && v ≤ 12) (fun v => 1 ≤ v && v ≤ 9) (fun hour12 =>
  expectChar ':' (
  parseField (fun v => v ≤ 59) (fun v => v ≤ 9) (fun minute =>
  parseAmPm (fun pm rest =>
    if rest ≠ [] then none
    else if year = 0 then none
    else if day > daysInMonth year month then none
    else
      let hour := if pm then (if hour12 = 12 then 12 else hour12 + 12)
                  else (if hour12 = 12 then 0 else hour12)
      some ⟨year, month, day, hour, minute⟩))))))))))
  s.data

/-- `start_time + FOODCOOP_SHIFT_LENGTH` where
`FOODCOOP_SHIFT_LENGTH = timedelta(hours=2, minutes=45)`, with calendar
carry as performed by Python datetime arithmetic (fields produced by
`strptime_mdy_imp` are always in range, so one carry step per unit
suffices). -/
def addShiftLength (t : PyDateTime) : PyDateTime :=
  let m0 := t.minute + 45
  let minute := if m0 ≥ 60 then m0 - 60 else m0
  let h0 := if m0 ≥ 60 then t.hour + 3 else t.hour + 2
  let hour := if h0 ≥ 24 then h0 - 24 else h0
  let d0 := if h0 ≥ 24 then t.day + 1 else t.day
  let day := if d0 > daysInMonth t.year t.month then 1 else d0
  let mo0 := if d0 > daysInMonth t.year t.month then t.month + 1 else t.month
  let month := if mo0 > 12 then 1 else mo0
  let year := if mo0 > 12 then t.year + 1 else t.year
  ⟨year, month, day, hour, minute⟩

/-! ## Data model (`main.py`) -/

def FOODCOOP_URL : String := "https://members.foodcoop.com"

def GOOGLE_FOODCOOP_LOCATION : String := "Park Slope Food Coop"

/-- The fields of a `gcsa` calendar event the source reads or writes. -/
structure Event where
  summary : String
  start : PyDateTime
  «end» : PyDateTime
  description : String
  location : String
deriving DecidableEq, Repr

structure FoodCoopShiftKey where
  start_time : PyDateTime
  label : String
deriving DecidableEq, Repr

structure FoodCoopShift where
  key : FoodCoopShiftKey
  urls : Finset String
deriving DecidableEq

/-- `line.strip().lstrip("<li>").rstrip("</li>")`: note Python's
`lstrip`/`rstrip` strip *character sets*, not the literal markers. -/
def decodeLine (line : String) : String :=
  pyRstripChars (pyLstripChars (pyStrip line) "<li>") "</li>"

/-- `FoodCoopShift.from_event`: rebuild a shift from an event. -/
def FoodCoopShift.from_event (event : Event) : FoodCoopShift :=
  let urls := ((pySplitlines event.description).filter
      (fun line => pyStartsWith (pyStrip line) "<li>")).map decodeLine
  { key := { start_time := event.start, label := event.summary },
    urls := urls.toFinset }

/-- Lexicographic comparison of strings by code point (a total order
used only to pick a canonical iteration order for `urls`). -/
def charListLe : List Char → List Char → Bool
  | [], _ => true
  | _ :: _, [] => false
  | a :: as, b :: bs =>
      if a < b then true
      else if b < a then false
      else charListLe as bs

def urlLe (a b : String) : Prop := charListLe a.data b.data = true

instance : DecidableRel urlLe := fun a b =>
  inferInstanceAs (Decidable (charListLe a.data b.data = true))

instance : IsTotal String urlLe where
  total a b := by
    suffices h : ∀ as bs, charListLe as bs = true ∨ charListLe bs as = true from
      h a.data b.data
    intro as
    induction as with
    | nil => intro bs; left; rfl
    | cons a as ih =>
      intro bs
      cases bs with
      | nil => right; rfl
      | cons b bs =>
        by_cases hab : a < b
        · left; simp [charListLe, hab]
        · by_cases hba : b < a
          · right; simp [charListLe, hba]
          · rcases ih bs with h | h <;> simp [charListLe, hab, hba, h]

instance : IsTrans String urlLe where
  trans a b c hab hbc := by
    suffices h : ∀ as bs cs, charListLe as bs = true → charListLe bs cs = true →
        charListLe as cs = true from h a.data b.data c.data hab hbc
    intro as
    induction as with
    | nil => intro bs cs _ _; cases cs <;> simp [charListLe]
    | cons x xs ih =>
      intro bs cs h1 h2
      cases bs with
      | nil => simp [charListLe] at h1
      | cons y ys =>
        cases cs with
        | nil => simp [charListLe] at h2
        | cons z zs =>
          simp only [charListLe] at h1 h2 ⊢
          by_cases hxy : x < y
          · by_cases hyz : y < z
            · simp [lt_trans hxy hyz]
            · by_cases hzy : z < y
              · simp [hxy, hyz, hzy] at h2
              · have hyz' : y = z := le_antisymm (not_lt.mp hzy) (not_lt.mp hyz)
                subst hyz'
                simp [hxy]
          · by_cases hyx : y < x
            · simp [hxy, hyx] at h1
            · have hxy' : x = y := le_antisymm (not_lt.mp hyx) (not_lt.mp hxy)
              subst hxy'
              by_cases hyz : x < z
              · simp [hyz]
              · by_cases hzy : z < x
                · simp [hyz, hzy] at h2
                · simp only [lt_irrefl, if_neg, not_false_iff, if_false,
                    hyz, hzy] at h1 h2 ⊢
                  exact ih _ _ h1 h2

instance : IsAntisymm String urlLe where
  antisymm a b hab hba := by
    have h : ∀ as bs, charListLe as bs = true → charListLe bs as = true →
        as = bs := by
      intro as
      induction as with
      | nil => intro bs _ h2; cases bs with
        | nil => rfl
        | cons b bs => simp [charListLe] at h2
      | cons x xs ih =>
        intro bs h1 h2
        cases bs with
        | nil => simp [charListLe] at h1
        | cons y ys =>
          simp only [charListLe] at h1 h2
          by_cases hxy : x < y
          · have hyx : ¬ y < x := lt_asymm hxy
            simp [hxy, hyx] at h2
          · by_cases hyx : y < x
            · simp [hxy, hyx] at h1
            · have hxy' : x = y := le_antisymm (not_lt.mp hyx) (not_lt.mp hxy)
              subst hxy'
              simp only [lt_irrefl, if_neg, not_false_iff, if_false] at h1 h2
              rw [ih ys h1 h2]
    exact congrArg String.mk (h a.data b.data hab hba)

/-- `"\n".join(lines)`. -/
def pyJoinLines : List String → String
  | [] => ""
  | [l] => l
  | l :: rest => l ++ "\n" ++ pyJoinLines rest

/-- The elements of a finite set of strings in ascending `urlLe` order
(insertion sort, which is invariant under permutation of the underlying
list, hence well-defined on the multiset). -/
def sortedUrls (s : Finset String) : List String :=
  Quot.liftOn s.val (List.insertionSort urlLe) (fun _ _ h =>
    List.eq_of_perm_of_sorted
      ((List.perm_insertionSort _ _).trans
        (h.trans (List.perm_insertionSort _ _).symm))
      (List.sorted_insertionSort _ _) (List.sorted_insertionSort _ _))

/-- `create_event_from_shift`.  Python iterates the `urls` frozenset in
an unspecified order when building the description; the model uses the
sorted order (no claim depends on line order, only on the URL set). -/
def create_event_from_shift (shift : FoodCoopShift) : Event :=
  { summary := shift.key.label
    start := shift.key.start_time
    «end» := addShiftLength shift.key.start_time
    description := pyJoinLines
      ([toString shift.urls.card ++ " shift(s) available for "
          ++ shift.key.label ++ ":",
        "<ul>"]
        ++ (sortedUrls shift.urls).map (fun url => "<li>" ++ url ++ "</li>")
        ++ ["</ul>"])
    location := GOOGLE_FOODCOOP_LOCATION }

/-! ## Shift Record Parser (`parse_shifts_from_calendar_date_locator`)

The browser-side extractor returns, per day fragment, a date header text
and a list of raw entries with `href`, `time` and `label` fields; the
Python function then runs the pure transformation modelled here.  An
`assert` failure or uncaught `ValueError` aborts the fragment (and the
run); this is modelled by `Except`. -/

instance {ε α : Type} [DecidableEq ε] [DecidableEq α] :
    DecidableEq (Except ε α)
  | .error e1, .error e2 =>
      if h : e1 = e2 then isTrue (by rw [h])
      else isFalse (by intro hc; cases hc; exact h rfl)
  | .error _, .ok _ => isFalse (by intro h; cases h)
  | .ok _, .error _ => isFalse (by intro h; cases h)
  | .ok a1, .ok a2 =>
      if h : a1 = a2 then isTrue (by rw [h])
      else isFalse (by intro hc; cases hc; exact h rfl)

structure RawShiftData where
  href : String
  time : String
  label : String
deriving DecidableEq, Repr

structure DayData where
  dateText : String
  shifts : List RawShiftData
deriving DecidableEq, Repr

inductive ParseError
  /-- `assert len(date_parts) >= 2, "Shift date text is missing"` -/
  | dateMissing
  /-- `assert url, "Shift url is missing"` -/
  | urlMissing
  /-- `ValueError` from unpacking a `split`/`rsplit` of length ≠ 2 -/
  | labelUnpack
  /-- `ValueError` from `datetime.strptime` -/
  | timeParse
deriving DecidableEq, Repr

/-- The loop body of `parse_shifts_from_calendar_date_locator` for one
raw entry, producing the entry's `FoodCoopShiftKey` and resolved
absolute URL. -/
def processRawShift (date : String) (shift : RawShiftData) :
    Except ParseError (FoodCoopShiftKey × String) :=
  let url := pyStrip shift.href
  if url = "" then .error .urlMissing
  else
    let url := FOODCOOP_URL ++ pyRstripChars (pyStrip url) "/"
    let start_time_text := pyStrip shift.time
    let label_text := pyStrip shift.label
    match unpack2 (pySplitMax1 (pyLstripChars label_text "🥕")) with
    | none => .error .labelUnpack
    | some (_, label) =>
      match unpack2 (pyRsplitMax1 label) with
      | none => .error .labelUnpack
      | some (shift_name, emoji) =>
        let label := emoji ++ " " ++ shift_name
        match strptime_mdy_imp (date ++ " " ++ start_time_text) with
        | none => .error .timeParse
        | some start_time =>
          .ok ({ start_time := start_time, label := label }, url)

/-- `shifts_for_key.setdefault(key, []).append(url)`: append `url` to the
list of `key`, inserting the key at the end on first occurrence
(Python dict insertion order). -/
def setdefaultAppend (acc : List (FoodCoopShiftKey × List String))
    (key : FoodCoopShiftKey) (url : String) :
    List (FoodCoopShiftKey × List String) :=
  match acc with
  | [] => [(key, [url])]
  | (k, us) :: rest =>
      if k = key then (k, us ++ [url]) :: rest
      else (k, us) :: setdefaultAppend rest key url

/-- The grouping loop over the processed `(key, url)` pairs. -/
def groupShiftsForKey (pairs : List (FoodCoopShiftKey × String)) :
    List (FoodCoopShiftKey × List String) :=
  pairs.foldl (fun acc p => setdefaultAppend acc p.1 p.2) []

/-- Process all raw entries in order, aborting at the first error (the
source's loop raises out of the whole function, discarding any partial
dict). -/
def processAllRawShifts (date : String) :
    List RawShiftData → Except ParseError (List (FoodCoopShiftKey × String))
  | [] => .ok []
  | e :: rest =>
    match processRawShift date e with
    | .error err => .error err
    | .ok p =>
      match processAllRawShifts date rest with
      | .error err => .error err
      | .ok ps => .ok (p :: ps)

/-- `parse_shifts_from_calendar_date_locator`, given the extracted raw
day data. -/
def parse_shifts_from_calendar_date_locator (day : DayData) :
    Except ParseError (List FoodCoopShift) :=
  let date_parts := pySplit (pyStrip day.dateText)
  if date_parts.length < 2 then .error .dateMissing
  else
    let date := date_parts.getLastD ""
    match processAllRawShifts date day.shifts with
    | .error err => .error err
    | .ok pairs =>
      .ok ((groupShiftsForKey pairs).map
        (fun ku => { key := ku.1, urls := ku.2.toFinset }))

/-! ## Reconciliation Engine (`reconcile_shifts_to_google_calendar`)

The I/O-free core: given the scraped shift list and the sequence of
events currently in the calendar (in the order `get_events()` yields
them), compute the reconstructed existing-state map, the duplicate
events deleted while reading it, and the three operation lists.  The
remote calendar itself is the external collaborator; applying the
computed operations is modelled by `eventsAfterReconcile`. -/

/-- The state-reading loop: `acc.1` is `existing_shifts_for_key` as an
insertion-ordered association list (the stored shift's `key` field is
the dict key), `acc.2` the duplicate events deleted on sight. -/
def readExistingStep (acc : List (FoodCoopShift × Event) × List Event)
    (event : Event) : List (FoodCoopShift × Event) × List Event :=
  let existing_shift := FoodCoopShift.from_event event
  if (acc.1.find? (fun se => decide (se.1.key = existing_shift.key))).isSome
  then (acc.1, acc.2 ++ [event])
  else (acc.1 ++ [(existing_shift, event)], acc.2)

def readExistingShifts (events : List Event) :
    List (FoodCoopShift × Event) × List Event :=
  events.foldl readExistingStep ([], [])

/-- Lookup in `existing_shifts_for_key` by `ShiftKey`. -/
def existingLookup (existing : List (FoodCoopShift × Event))
    (k : FoodCoopShiftKey) : Option (FoodCoopShift × Event) :=
  existing.find? (fun se => decide (se.1.key = k))

/-- One assignment `d[shift.key] = shift` of the dict comprehension
`{shift.key: shift for shift in shifts}`: overwrite in place if the key
is present, else append. -/
def pyDictInsert (acc : List (FoodCoopShiftKey × FoodCoopShift))
    (s : FoodCoopShift) : List (FoodCoopShiftKey × FoodCoopShift) :=
  match acc with
  | [] => [(s.key, s)]
  | (k, v) :: rest =>
      if k = s.key then (k, s) :: rest else (k, v) :: pyDictInsert rest s

/-- `parsed_shifts_for_key = {shift.key: shift for shift in shifts}`. -/
def parsed_shifts_for_key (shifts : List FoodCoopShift) :
    List (FoodCoopShiftKey × FoodCoopShift) :=
  shifts.foldl pyDictInsert []

def parsedLookup (parsed : List (FoodCoopShiftKey × FoodCoopShift))
    (k : FoodCoopShiftKey) : Option FoodCoopShift :=
  (parsed.find? (fun kv => decide (kv.1 = k))).map (fun kv => kv.2)

/-- The outcome of one reconciliation run: the reconstructed state and
the operations applied, in the order the source computes them. -/
structure ReconcileOutcome where
  existing_shifts_for_key : List (FoodCoopShift × Event)
  duplicate_events_deleted : List Event
  shifts_to_add : List FoodCoopShift
  events_to_remove : List Event
  shifts_to_update : List (FoodCoopShift × Event)
deriving DecidableEq

/-- The pure core of `reconcile_shifts_to_google_calendar`. -/
def reconcile_shifts_to_google_calendar (shifts : List FoodCoopShift)
    (events : List Event) : ReconcileOutcome :=
  let read := readExistingShifts events
  let existing := read.1
  let parsed := parsed_shifts_for_key shifts
  { existing_shifts_for_key := existing
    duplicate_events_deleted := read.2
    shifts_to_add :=
      shifts.filter (fun s => (existingLookup existing s.key).isNone)
    events_to_remove :=
      (existing.filter (fun se => (parsedLookup parsed se.1.key).isNone)).map
        (fun se => se.2)
    shifts_to_update :=
      existing.filterMap (fun se =>
        match parsedLookup parsed se.1.key with
        | some p => if se.1.urls ≠ p.urls then some (p, se.2) else none
        | none => none) }

/-- `event.description = create_event_from_shift(shift).description`
followed by `update_event(event)`: only the description field changes. -/
def update_event_description (shift : FoodCoopShift) (event : Event) :
    Event :=
  { event with description := (create_event_from_shift shift).description }

/-- The calendar contents after a run: existing events that were neither
duplicate-deleted nor removed (updated in place where applicable),
followed by the freshly created events. -/
def eventsAfterReconcile (shifts : List FoodCoopShift)
    (events : List Event) : List Event :=
  let o := reconcile_shifts_to_google_calendar shifts events
  let parsed := parsed_shifts_for_key shifts
  (o.existing_shifts_for_key.filterMap (fun se =>
      match parsedLookup parsed se.1.key with
      | none => none
      | some p =>
          if se.1.urls ≠ p.urls then some (update_event_description p se.2)
          else some se.2))
    ++ o.shifts_to_add.map create_event_from_shift

/-! ## Helper lemmas: strings -/

theorem dropWhile_eq_self_of_head (p : Char → Bool) :
    ∀ (l : List Char), (∀ c, l.head? = some c → p c = false) →
      l.dropWhile p = l
  | [], _ => rfl
  | c :: l, h => by simp [List.dropWhile_cons, h c rfl]

theorem pyStrip_eq_self (s : String)
    (h1 : ∀ c, s.data.head? = some c → pyIsSpace c = false)
    (h2 : ∀ c, s.data.getLast? = some c → pyIsSpace c = false) :
    pyStrip s = s := by
  unfold pyStrip
  rw [dropWhile_eq_self_of_head _ _ h1,
    dropWhile_eq_self_of_head _ _
      (fun c hc => h2 c (by rwa [List.head?_reverse] at hc)),
    List.reverse_reverse]

theorem data_append (a b : String) : (a ++ b).data = a.data ++ b.data := rfl

theorem pySplitlinesAux_through (l : List Char)
    (hl : ∀ c ∈ l, pyIsLineBreak c = false) (rest cur : List Char) :
    pySplitlinesAux (l ++ rest) cur false =
      pySplitlinesAux rest (l.reverse ++ cur) false := by
  induction l generalizing cur with
  | nil => simp
  | cons c l ih =>
    have hc : pyIsLineBreak c = false := hl c (List.mem_cons_self c l)
    have hcr : ¬ (c = '\r') := by
      intro h; subst h; simp [pyIsLineBreak] at hc
    have hrest : ∀ d ∈ l, pyIsLineBreak d = false :=
      fun d hd => hl d (List.mem_cons_of_mem c hd)
    simp only [List.cons_append, pySplitlinesAux, Bool.false_and,
      Bool.false_eq_true, if_false, if_neg hcr, hc, List.reverse_cons,
      List.append_assoc, List.singleton_append, List.nil_append]
    exact ih hrest (c :: cur)

theorem pySplitlines_joinLines : ∀ (lines : List String),
    (∀ l ∈ lines, ∀ c ∈ l.data, pyIsLineBreak c = false) →
    lines.getLast? ≠ some "" →
    pySplitlines (pyJoinLines lines) = lines
  | [], _, _ => rfl
  | [l], hb, hlast => by
    have hne : l ≠ "" := by simpa using hlast
    have hdata : l.data ≠ [] := fun h => hne (congrArg String.mk h)
    show pySplitlines l = [l]
    unfold pySplitlines
    have h := pySplitlinesAux_through l.data (hb l (by simp)) [] []
    simp only [List.append_nil] at h
    rw [h]
    simp only [pySplitlinesAux]
    rw [if_neg (by simpa using hdata), List.reverse_reverse]
  | l :: l2 :: rest, hb, hlast => by
    show pySplitlines (l ++ "\n" ++ pyJoinLines (l2 :: rest)) = l :: l2 :: rest
    unfold pySplitlines
    rw [data_append, data_append]
    rw [List.append_assoc]
    rw [pySplitlinesAux_through l.data (hb l (by simp)) _ []]
    show pySplitlinesAux ('\n' :: (pyJoinLines (l2 :: rest)).data) _ false = _
    simp only [pySplitlinesAux]
    rw [if_neg (by simp), if_neg (by simp), if_pos (by simp [pyIsLineBreak])]
    rw [List.append_nil, List.reverse_reverse]
    have ih := pySplitlines_joinLines (l2 :: rest)
      (fun x hx => hb x (List.mem_cons_of_mem l hx))
      (by rwa [List.getLast?_cons_cons] at hlast)
    unfold pySplitlines at ih
    rw [ih]

/-! ## Helper lemmas: `Nat.repr` produces digits -/

theorem digitChar_mem_digits : ∀ m, m < 10 →
    Nat.digitChar m ∈ ['0','1','2','3','4','5','6','7','8','9'] := by decide

theorem toDigitsCore_mem (fuel : Nat) : ∀ (n : Nat) (ds : List Char),
    (∀ c ∈ ds, c ∈ ['0','1','2','3','4','5','6','7','8','9']) →
    ∀ c ∈ Nat.toDigitsCore 10 fuel n ds,
      c ∈ ['0','1','2','3','4','5','6','7','8','9'] := by
  induction fuel with
  | zero => intro n ds hds; simpa [Nat.toDigitsCore] using hds
  | succ fuel ih =>
    intro n ds hds c hc
    rw [Nat.toDigitsCore] at hc
    by_cases h : n / 10 = 0
    · rw [if_pos h] at hc
      rcases List.mem_cons.mp hc with h1 | h1
      · exact h1 ▸ digitChar_mem_digits _ (Nat.mod_lt _ (by norm_num))
      · exact hds c h1
    · rw [if_neg h] at hc
      refine ih _ _ ?_ c hc
      intro d hd
      rcases List.mem_cons.mp hd with h1 | h1
      · exact h1 ▸ digitChar_mem_digits _ (Nat.mod_lt _ (by norm_num))
      · exact hds d h1

theorem toDigitsCore_ne_nil_of_acc (fuel : Nat) : ∀ (n : Nat) (ds : List Char),
    ds ≠ [] → Nat.toDigitsCore 10 fuel n ds ≠ [] := by
  induction fuel with
  | zero => intro n ds h; simpa [Nat.toDigitsCore] using h
  | succ fuel ih =>
    intro n ds h
    rw [Nat.toDigitsCore]
    by_cases hn : n / 10 = 0
    · simp [hn]
    · rw [if_neg hn]; exact ih _ _ (by simp)

theorem repr_data_mem (n : Nat) :
    ∀ c ∈ (Nat.repr n).data, c ∈ ['0','1','2','3','4','5','6','7','8','9'] := by
  intro c hc
  have : (Nat.repr n).data = Nat.toDigitsCore 10 (n + 1) n [] := rfl
  rw [this] at hc
  exact toDigitsCore_mem _ _ _ (by simp) c hc

theorem repr_data_ne_nil (n : Nat) : (Nat.repr n).data ≠ [] := by
  have : (Nat.repr n).data = Nat.toDigitsCore 10 (n + 1) n [] := rfl
  rw [this, Nat.toDigitsCore]
  by_cases hn : n / 10 = 0
  · simp [hn]
  · rw [if_neg hn]; exact toDigitsCore_ne_nil_of_acc _ _ _ (by simp)

/-! ## Helper lemmas: `sortedUrls` -/

theorem mem_sortedUrls (s : Finset String) (u : String) :
    u ∈ sortedUrls s ↔ u ∈ s := by
  rcases s with ⟨m, hn⟩
  revert hn
  induction m using Quotient.inductionOn with
  | h l =>
    intro hn
    show u ∈ List.insertionSort urlLe l ↔ _
    rw [(List.perm_insertionSort urlLe l).mem_iff]
    exact Iff.rfl

theorem sortedUrls_toFinset (s : Finset String) :
    (sortedUrls s).toFinset = s := by
  ext u
  rw [List.mem_toFinset, mem_sortedUrls]

/-! ## Helper lemmas: description lines -/

theorem digit_not_space :
    ∀ c ∈ ['0','1','2','3','4','5','6','7','8','9'], pyIsSpace c = false := by
  decide

theorem digit_not_break :
    ∀ c ∈ ['0','1','2','3','4','5','6','7','8','9'],
      pyIsLineBreak c = false := by
  decide

theorem digit_ne_lt : ∀ c ∈ ['0','1','2','3','4','5','6','7','8','9'],
    c ≠ '<' := by decide

theorem toString_nat (n : Nat) : (toString n : String) = Nat.repr n := rfl

theorem header_data (n : Nat) (label : String) :
    (toString n ++ " shift(s) available for " ++ label ++ ":").data =
      (Nat.repr n).data ++
        (" shift(s) available for ".data ++ (label.data ++ [':'])) := by
  simp [data_append, toString_nat]

theorem header_strip_eq_self (n : Nat) (label : String) :
    pyStrip (toString n ++ " shift(s) available for " ++ label ++ ":") =
      toString n ++ " shift(s) available for " ++ label ++ ":" := by
  apply pyStrip_eq_self
  · intro c hc
    rw [header_data] at hc
    obtain ⟨d, ds, hds⟩ := List.exists_cons_of_ne_nil (repr_data_ne_nil n)
    rw [hds] at hc
    simp only [List.cons_append, List.head?_cons, Option.some.injEq] at hc
    subst hc
    have hd : d ∈ (Nat.repr n).data := by
      rw [hds]; exact List.mem_cons_self d ds
    exact digit_not_space d (repr_data_mem n d hd)
  · intro c hc
    rw [header_data, ← List.append_assoc, ← List.append_assoc,
      List.getLast?_append_of_ne_nil _ (by simp)] at hc
    simp at hc
    subst hc
    decide

theorem header_not_li (n : Nat) (label : String) :
    pyStartsWith
      (pyStrip (toString n ++ " shift(s) available for " ++ label ++ ":"))
      "<li>" = false := by
  rw [header_strip_eq_self]
  unfold pyStartsWith
  rw [decide_eq_false_iff_not]
  intro hpre
  rw [header_data] at hpre
  obtain ⟨d, ds, hds⟩ := List.exists_cons_of_ne_nil (repr_data_ne_nil n)
  rw [hds] at hpre
  rw [List.cons_append] at hpre
  have : '<' = d := (List.cons_prefix_cons.mp hpre).1
  have hd : d ∈ (Nat.repr n).data := by
    rw [hds]; exact List.mem_cons_self d ds
  exact digit_ne_lt d (repr_data_mem n d hd) this.symm

theorem header_breakFree (n : Nat) (label : String)
    (hlabel : ∀ c ∈ label.data, pyIsLineBreak c = false) :
    ∀ c ∈ (toString n ++ " shift(s) available for " ++ label ++ ":").data,
      pyIsLineBreak c = false := by
  intro c hc
  rw [header_data, List.mem_append, List.mem_append, List.mem_append] at hc
  rcases hc with h | (h | (h | h))
  · exact digit_not_break c (repr_data_mem n c h)
  · revert h; revert c; decide
  · exact hlabel c h
  · simp at h; subst h; decide

theorem li_line_data (u : String) :
    ("<li>" ++ u ++ "</li>").data =
      '<' :: 'l' :: 'i' :: '>' :: (u.data ++ ['<', '/', 'l', 'i', '>']) := by
  simp [data_append]

theorem li_line_strip (u : String) :
    pyStrip ("<li>" ++ u ++ "</li>") = "<li>" ++ u ++ "</li>" := by
  apply pyStrip_eq_self
  · intro c hc
    rw [li_line_data] at hc
    simp only [List.head?_cons, Option.some.injEq] at hc
    subst hc; decide
  · intro c hc
    rw [li_line_data] at hc
    have : ('<' :: 'l' :: 'i' :: '>' :: (u.data ++ ['<', '/', 'l', 'i', '>'])) =
        (('<' :: 'l' :: 'i' :: '>' :: u.data) ++ ['<', '/', 'l', 'i', '>']) := by
      simp
    rw [this, List.getLast?_append_of_ne_nil _ (by simp)] at hc
    simp at hc
    subst hc; decide

theorem li_line_startswith (u : String) :
    pyStartsWith (pyStrip ("<li>" ++ u ++ "</li>")) "<li>" = true := by
  rw [li_line_strip]
  unfold pyStartsWith
  rw [decide_eq_true_iff]
  rw [li_line_data]
  show ['<', 'l', 'i', '>'] <+: _
  exact ⟨u.data ++ ['<', '/', 'l', 'i', '>'], rfl⟩

theorem li_line_breakFree (u : String)
    (hu : ∀ c ∈ u.data, pyIsLineBreak c = false) :
    ∀ c ∈ ("<li>" ++ u ++ "</li>").data, pyIsLineBreak c = false := by
  intro c hc
  rw [li_line_data] at hc
  simp only [List.mem_cons, List.mem_append] at hc
  rcases hc with h | h | h | h | (h | h)
  · subst h; decide
  · subst h; decide
  · subst h; decide
  · subst h; decide
  · exact hu c h
  · simp at h; rcases h with h | h | h | h | h <;> (subst h; decide)

theorem ul_not_li : pyStartsWith (pyStrip "<ul>") "<li>" = false := by decide

theorem ul_close_not_li : pyStartsWith (pyStrip "</ul>") "<li>" = false := by
  decide

theorem ul_breakFree : ∀ c ∈ ("<ul>" : String).data, pyIsLineBreak c = false := by
  decide

theorem ul_close_breakFree :
    ∀ c ∈ ("</ul>" : String).data, pyIsLineBreak c = false := by decide

/-! ## Claim C1 -/

/-- Claim C1, as stated, is false: Python's `lstrip("<li>")` and
`rstrip("</li>")` strip *character sets*, so a well-formed absolute URL
ending in a character of `</li>` (here `.../detail`) does not survive
the round-trip: decoding returns `.../deta` and the recovered shift
differs from the original. -/
theorem C1_counterexample :
    (FoodCoopShift.from_event (create_event_from_shift
      { key := { start_time := ⟨2025, 5, 12, 9, 0⟩,
                 label := "🧹 General Volunteer" },
        urls := {"https://members.foodcoop.com/services/shifts/detail"} })).urls
      = {"https://members.foodcoop.com/services/shifts/deta"} ∧
    FoodCoopShift.from_event (create_event_from_shift
      { key := { start_time := ⟨2025, 5, 12, 9, 0⟩,
                 label := "🧹 General Volunteer" },
        urls := {"https://members.foodcoop.com/services/shifts/detail"} }) ≠
      { key := { start_time := ⟨2025, 5, 12, 9, 0⟩,
                 label := "🧹 General Volunteer" },
        urls := {"https://members.foodcoop.com/services/shifts/detail"} } := by
  decide

/-- Claim C1 (amended): decoding `create_event_from_shift s` with
`FoodCoopShift.from_event` recovers `s` exactly, provided the label
contains no line-break character and every URL survives the marker
stripping (`decodeLine ("<li>" ++ u ++ "</li>") = u`, i.e. the URL is
nonempty, does not begin with a character of `<li>` and does not end
with a character of `</li>`) and contains no line-break character.  In
general decoding yields each URL with those leading/trailing characters
stripped, because `lstrip`/`rstrip` remove character sets rather than
the literal markers. -/
theorem C1_urls_roundtrip (s : FoodCoopShift)
    (hlabel : ∀ c ∈ s.key.label.data, pyIsLineBreak c = false)
    (hclean : ∀ u ∈ s.urls, (∀ c ∈ u.data, pyIsLineBreak c = false) ∧
      decodeLine ("<li>" ++ u ++ "</li>") = u) :
    FoodCoopShift.from_event (create_event_from_shift s) = s := by
  obtain ⟨⟨st, lb⟩, urls⟩ := s
  simp only at hlabel hclean
  have hmemurls : ∀ u ∈ sortedUrls urls, u ∈ urls := fun u hu =>
    (mem_sortedUrls urls u).mp hu
  have hsplit : pySplitlines
      (create_event_from_shift ⟨⟨st, lb⟩, urls⟩).description =
      (toString urls.card ++ " shift(s) available for " ++ lb ++ ":") ::
        "<ul>" ::
        ((sortedUrls urls).map (fun url => "<li>" ++ url ++ "</li>") ++
          ["</ul>"]) := by
    apply pySplitlines_joinLines
    · intro l hl
      rcases List.mem_cons.mp hl with rfl | hl
      · exact header_breakFree _ _ hlabel
      rcases List.mem_cons.mp hl with rfl | hl
      · exact ul_breakFree
      rcases List.mem_append.mp hl with hl | hl
      · obtain ⟨u, hu, rfl⟩ := List.mem_map.mp hl
        exact li_line_breakFree u ((hclean u (hmemurls u hu)).1)
      · simp only [List.mem_singleton] at hl; subst hl
        exact ul_close_breakFree
    · rw [List.getLast?_append_of_ne_nil _ (by simp)]
      simp
  show FoodCoopShift.mk
    ⟨(create_event_from_shift ⟨⟨st, lb⟩, urls⟩).start,
     (create_event_from_shift ⟨⟨st, lb⟩, urls⟩).summary⟩ _ = _
  simp only [FoodCoopShift.mk.injEq, FoodCoopShiftKey.mk.injEq]
  refine ⟨⟨rfl, rfl⟩, ?_⟩
  rw [hsplit]
  rw [List.filter_cons_of_neg (by simpa using header_not_li urls.card lb)]
  rw [List.filter_cons_of_neg (by simpa using ul_not_li)]
  rw [List.filter_append]
  rw [List.filter_eq_self.mpr (by
    intro a ha
    obtain ⟨u, hu, rfl⟩ := List.mem_map.mp ha
    simpa using li_line_startswith u)]
  rw [show List.filter (fun line => pyStartsWith (pyStrip line) "<li>")
      ["</ul>"] = [] by simp [List.filter_cons, ul_close_not_li]]
  rw [List.append_nil, List.map_map]
  have hmc : ∀ u ∈ sortedUrls urls,
      (decodeLine ∘ fun url => "<li>" ++ url ++ "</li>") u = id u :=
    fun u hu => (hclean u (hmemurls u hu)).2
  rw [List.map_congr_left hmc, List.map_id]
  exact sortedUrls_toFinset urls

/-- Witness for `C1_urls_roundtrip` at a concrete two-URL shift. -/
theorem C1_urls_roundtrip_witness :
    FoodCoopShift.from_event (create_event_from_shift
      { key := { start_time := ⟨2025, 5, 12, 9, 0⟩,
                 label := "🧹 General Volunteer" },
        urls := {"https://members.foodcoop.com/a",
                 "https://members.foodcoop.com/b"} }) =
      { key := { start_time := ⟨2025, 5, 12, 9, 0⟩,
                 label := "🧹 General Volunteer" },
        urls := {"https://members.foodcoop.com/a",
                 "https://members.foodcoop.com/b"} } :=
  C1_urls_roundtrip _ (by decide) (by decide)

/-! ## Helper lemmas: the keyed dict `parsed_shifts_for_key` -/

theorem parsedLookup_nil (k : FoodCoopShiftKey) :
    parsedLookup [] k = none := rfl

theorem parsedLookup_insert (acc : List (FoodCoopShiftKey × FoodCoopShift))
    (s : FoodCoopShift) (k : FoodCoopShiftKey) :
    parsedLookup (pyDictInsert acc s) k =
      if s.key = k then some s else parsedLookup acc k := by
  induction acc with
  | nil => by_cases h : s.key = k <;> simp [pyDictInsert, parsedLookup, h]
  | cons kv rest ih =>
    obtain ⟨k', v⟩ := kv
    by_cases h1 : k' = s.key
    · subst h1
      by_cases h2 : s.key = k <;>
        simp [pyDictInsert, parsedLookup, List.find?, h2]
    · by_cases h2 : k' = k
      · subst h2
        have : ¬ s.key = k' := fun h => h1 h.symm
        simp [pyDictInsert, parsedLookup, h1, this]
      · simp only [pyDictInsert, if_neg h1]
        simp only [parsedLookup, List.find?] at ih ⊢
        simp [h2, ih]

theorem parsedLookup_foldl (shifts : List FoodCoopShift) :
    ∀ (acc : List (FoodCoopShiftKey × FoodCoopShift)) (k : FoodCoopShiftKey),
    parsedLookup (shifts.foldl pyDictInsert acc) k =
      ((shifts.reverse.find? (fun s => decide (s.key = k))) <|>
        parsedLookup acc k) := by
  induction shifts with
  | nil => intro acc k; simp
  | cons s rest ih =>
    intro acc k
    show parsedLookup (rest.foldl pyDictInsert (pyDictInsert acc s)) k = _
    rw [ih]
    rw [List.reverse_cons, List.find?_append, parsedLookup_insert]
    by_cases h : s.key = k
    · cases hf : rest.reverse.find? (fun s => decide (s.key = k)) <;>
        simp [h, hf, List.find?]
    · cases hf : rest.reverse.find? (fun s => decide (s.key = k)) <;>
        simp [h, hf, List.find?]

theorem parsedLookup_eq_findLast (shifts : List FoodCoopShift)
    (k : FoodCoopShiftKey) :
    parsedLookup (parsed_shifts_for_key shifts) k =
      shifts.reverse.find? (fun s => decide (s.key = k)) := by
  show parsedLookup (shifts.foldl pyDictInsert []) k = _
  rw [parsedLookup_foldl]
  cases hf : shifts.reverse.find? (fun s => decide (s.key = k)) <;>
    simp [hf, parsedLookup_nil]

theorem parsedLookup_eq_none_iff (shifts : List FoodCoopShift)
    (k : FoodCoopShiftKey) :
    parsedLookup (parsed_shifts_for_key shifts) k = none ↔
      ∀ s ∈ shifts, s.key ≠ k := by
  rw [parsedLookup_eq_findLast, List.find?_eq_none]
  constructor
  · intro h s hs
    have := h s (List.mem_reverse.mpr hs)
    simpa using this
  · intro h s hs
    have := h s (List.mem_reverse.mp hs)
    simpa using this

theorem parsedLookup_some (shifts : List FoodCoopShift)
    (k : FoodCoopShiftKey) (p : FoodCoopShift)
    (h : parsedLookup (parsed_shifts_for_key shifts) k = some p) :
    p ∈ shifts ∧ p.key = k := by
  rw [parsedLookup_eq_findLast] at h
  refine ⟨List.mem_reverse.mp (List.mem_of_find?_eq_some h), ?_⟩
  have := List.find?_some h
  simpa using this

/-! ## Claim C2 -/

/-- Claim C2, as stated, is false: for an input list containing two
shifts with the same key (different urls) and an empty calendar, the
engine issues TWO creates for that one key (one per list element), and
the keyed dict used for comparisons holds the last element's urls, not
the union. -/
theorem C2_counterexample :
    (reconcile_shifts_to_google_calendar
      [{ key := { start_time := ⟨2025, 5, 12, 9, 0⟩, label := "🧹 Volunteer" },
         urls := {"https://members.foodcoop.com/a"} },
       { key := { start_time := ⟨2025, 5, 12, 9, 0⟩, label := "🧹 Volunteer" },
         urls := {"https://members.foodcoop.com/b"} }] []).shifts_to_add =
      [{ key := { start_time := ⟨2025, 5, 12, 9, 0⟩, label := "🧹 Volunteer" },
         urls := {"https://members.foodcoop.com/a"} },
       { key := { start_time := ⟨2025, 5, 12, 9, 0⟩, label := "🧹 Volunteer" },
         urls := {"https://members.foodcoop.com/b"} }] ∧
    parsedLookup (parsed_shifts_for_key
      [{ key := { start_time := ⟨2025, 5, 12, 9, 0⟩, label := "🧹 Volunteer" },
         urls := {"https://members.foodcoop.com/a"} },
       { key := { start_time := ⟨2025, 5, 12, 9, 0⟩, label := "🧹 Volunteer" },
         urls := {"https://members.foodcoop.com/b"} }])
      { start_time := ⟨2025, 5, 12, 9, 0⟩, label := "🧹 Volunteer" } =
      some { key := { start_time := ⟨2025, 5, 12, 9, 0⟩,
                      label := "🧹 Volunteer" },
             urls := {"https://members.foodcoop.com/b"} } ∧
    ({"https://members.foodcoop.com/b"} : Finset String) ≠
      {"https://members.foodcoop.com/a"} ∪
        {"https://members.foodcoop.com/b"} := by
  decide

/-- Claim C2 (amended): the Reconciliation Engine performs no
merge-by-key reduction of the scraped list.  `shifts_to_add` keeps every
input list element whose key is absent from the existing map, so a key
occurring in two list elements and absent from the existing map receives
one `create_event` per element; and the keyed dict used for the
removal/update comparison maps each key to the LAST list element with
that key (dict-comprehension overwrite), not to a shift with the unioned
urls set. -/
theorem C2_no_merge (shifts : List FoodCoopShift) (events : List Event) :
    (reconcile_shifts_to_google_calendar shifts events).shifts_to_add =
      shifts.filter (fun s =>
        (existingLookup (readExistingShifts events).1 s.key).isNone) ∧
    ∀ k, parsedLookup (parsed_shifts_for_key shifts) k =
      shifts.reverse.find? (fun s => decide (s.key = k)) :=
  ⟨rfl, parsedLookup_eq_findLast shifts⟩

/-! ## Claim C3 -/

/-- Claim C3, as stated, is false: on the raw label
"🥕 General Volunteer 🧹" the parser stores label "🧹 Volunteer", not
"🧹 General Volunteer" — `split(maxsplit=1)` discards the first
whitespace token after glyph-stripping, which here is "General". -/
theorem C3_counterexample :
    (parse_shifts_from_calendar_date_locator
      { dateText := "Mon 05/12/2025",
        shifts := [{ href := "/shift/1/", time := "9:00AM",
                     label := "🥕 General Volunteer 🧹" }] }).map
      (fun l => l.map (fun s => s.key.label)) = .ok ["🧹 Volunteer"] ∧
    ("🧹 Volunteer" : String) ≠ "🧹 General Volunteer" := by
  decide

/-- Claim C3 (amended): the parser maps the raw label text
"🥕 General Volunteer 🧹" to the normalized label "🧹 Volunteer": after
stripping the leading glyph, the first whitespace-delimited token
("General") is discarded as the kind token, and the trailing emoji is
moved in front of the remaining shift name; this label is the one stored
in the ShiftKey. -/
theorem C3_label_normalization :
    parse_shifts_from_calendar_date_locator
      { dateText := "Mon 05/12/2025",
        shifts := [{ href := "/shift/1/", time := "9:00AM",
                     label := "🥕 General Volunteer 🧹" }] } =
      .ok [{ key := { start_time := ⟨2025, 5, 12, 9, 0⟩,
                      label := "🧹 Volunteer" },
             urls := {"https://members.foodcoop.com/shift/1"} }] := by
  decide

/-! ## Helper lemmas: the state-reading fold -/

theorem existingLookup_append (l1 l2 : List (FoodCoopShift × Event))
    (k : FoodCoopShiftKey) :
    existingLookup (l1 ++ l2) k =
      (existingLookup l1 k).or (existingLookup l2 k) := by
  unfold existingLookup
  exact List.find?_append

theorem readFold_lookup (events : List Event) :
    ∀ (acc : List (FoodCoopShift × Event) × List Event) (k : FoodCoopShiftKey),
    existingLookup (events.foldl readExistingStep acc).1 k =
      (existingLookup acc.1 k).or
        (((events.filter
          (fun e => decide ((FoodCoopShift.from_event e).key = k))).head?).map
          (fun e => (FoodCoopShift.from_event e, e))) := by
  induction events with
  | nil => intro acc k; cases h : existingLookup acc.1 k <;> simp [h]
  | cons e rest ih =>
    intro acc k
    show existingLookup (rest.foldl readExistingStep
      (readExistingStep acc e)).1 k = _
    rw [ih]
    unfold readExistingStep
    by_cases hseen :
        (acc.1.find? (fun se =>
          decide (se.1.key = (FoodCoopShift.from_event e).key))).isSome
    · rw [if_pos hseen]
      by_cases hk : (FoodCoopShift.from_event e).key = k
      · subst hk
        have hsome : (existingLookup acc.1
            (FoodCoopShift.from_event e).key).isSome := hseen
        obtain ⟨v, hv⟩ := Option.isSome_iff_exists.mp hsome
        simp [hv, List.filter_cons]
      · simp only [List.filter_cons, decide_eq_true_eq, hk, if_false,
          Bool.false_eq_true]
    · rw [if_neg hseen]
      have hnone : existingLookup acc.1 (FoodCoopShift.from_event e).key
          = none := by
        unfold existingLookup
        exact Option.not_isSome_iff_eq_none.mp hseen
      rw [existingLookup_append]
      by_cases hk : (FoodCoopShift.from_event e).key = k
      · subst hk
        rw [hnone]
        have hsingle : existingLookup [(FoodCoopShift.from_event e, e)]
            (FoodCoopShift.from_event e).key =
            some (FoodCoopShift.from_event e, e) := by
          simp [existingLookup, List.find?]
        rw [hsingle]
        simp [List.filter_cons]
      · have hsingle : existingLookup [(FoodCoopShift.from_event e, e)] k
            = none := by
          simp [existingLookup, List.find?, hk]
        rw [hsingle]
        cases h : existingLookup acc.1 k <;>
          simp [h, List.filter_cons, hk]


theorem readFold_dups (events : List Event) :
    ∀ (acc : List (FoodCoopShift × Event) × List Event) (k : FoodCoopShiftKey),
    (events.foldl readExistingStep acc).2.filter
        (fun e => decide ((FoodCoopShift.from_event e).key = k)) =
      acc.2.filter (fun e => decide ((FoodCoopShift.from_event e).key = k)) ++
        (if (existingLookup acc.1 k).isSome
         then events.filter
           (fun e => decide ((FoodCoopShift.from_event e).key = k))
         else (events.filter
           (fun e => decide ((FoodCoopShift.from_event e).key = k))).drop 1) := by
  induction events with
  | nil =>
    intro acc k
    by_cases h : (existingLookup acc.1 k).isSome <;> simp [h]
  | cons e rest ih =>
    intro acc k
    show (rest.foldl readExistingStep (readExistingStep acc e)).2.filter _ = _
    rw [ih]
    unfold readExistingStep
    by_cases hseen :
        (acc.1.find? (fun se =>
          decide (se.1.key = (FoodCoopShift.from_event e).key))).isSome
    · rw [if_pos hseen]
      have hsome : (existingLookup acc.1
          (FoodCoopShift.from_event e).key).isSome := hseen
      by_cases hk : (FoodCoopShift.from_event e).key = k
      · subst hk
        simp [hsome, List.filter_append, List.filter_cons, List.append_assoc]
      · simp only [List.filter_append, List.filter_cons, decide_eq_true_eq,
          hk, if_false, Bool.false_eq_true, List.filter_nil, List.append_nil]
    · rw [if_neg hseen]
      have hnone : existingLookup acc.1 (FoodCoopShift.from_event e).key
          = none := by
        unfold existingLookup
        exact Option.not_isSome_iff_eq_none.mp hseen
      by_cases hk : (FoodCoopShift.from_event e).key = k
      · subst hk
        have hsome2 : (existingLookup
            (acc.1 ++ [(FoodCoopShift.from_event e, e)])
            (FoodCoopShift.from_event e).key).isSome := by
          rw [existingLookup_append, hnone]
          simp [existingLookup, List.find?]
        rw [if_pos hsome2]
        rw [if_neg (by simp [hnone])]
        simp [List.filter_cons]
      · have hlook : existingLookup
            (acc.1 ++ [(FoodCoopShift.from_event e, e)]) k =
            existingLookup acc.1 k := by
          rw [existingLookup_append]
          have : existingLookup [(FoodCoopShift.from_event e, e)] k = none := by
            simp [existingLookup, List.find?, hk]
          rw [this]
          cases existingLookup acc.1 k <;> rfl
        rw [hlook]
        simp [List.filter_cons, hk]

theorem readFold_keys_nodup (events : List Event) :
    ∀ (acc : List (FoodCoopShift × Event) × List Event),
    (acc.1.map (fun se => se.1.key)).Nodup →
    ((events.foldl readExistingStep acc).1.map (fun se => se.1.key)).Nodup := by
  induction events with
  | nil => intro acc h; exact h
  | cons e rest ih =>
    intro acc h
    show ((rest.foldl readExistingStep (readExistingStep acc e)).1.map _).Nodup
    apply ih
    unfold readExistingStep
    by_cases hseen :
        (acc.1.find? (fun se =>
          decide (se.1.key = (FoodCoopShift.from_event e).key))).isSome
    · rw [if_pos hseen]; exact h
    · rw [if_neg hseen]
      rw [List.map_append, List.map_cons, List.map_nil, List.nodup_append]
      refine ⟨h, List.nodup_singleton _, ?_⟩
      intro a ha hb
      simp only [List.mem_singleton] at hb
      subst hb
      obtain ⟨se, hse, hkey⟩ := List.mem_map.mp ha
      have := List.find?_eq_none.mp
        (Option.not_isSome_iff_eq_none.mp hseen) se hse
      simp [hkey] at this

theorem readFold_mem (events : List Event) :
    ∀ (acc : List (FoodCoopShift × Event) × List Event)
      (se : FoodCoopShift × Event),
    se ∈ (events.foldl readExistingStep acc).1 →
    se ∈ acc.1 ∨ (se.1 = FoodCoopShift.from_event se.2 ∧ se.2 ∈ events) := by
  induction events with
  | nil => intro acc se h; exact Or.inl h
  | cons e rest ih =>
    intro acc se h
    rcases ih _ se h with h1 | h1
    · unfold readExistingStep at h1
      by_cases hseen :
          (acc.1.find? (fun se =>
            decide (se.1.key = (FoodCoopShift.from_event e).key))).isSome
      · rw [if_pos hseen] at h1; exact Or.inl h1
      · rw [if_neg hseen] at h1
        rcases List.mem_append.mp h1 with h2 | h2
        · exact Or.inl h2
        · simp only [List.mem_singleton] at h2
          subst h2
          exact Or.inr ⟨rfl, List.mem_cons_self e rest⟩
    · exact Or.inr ⟨h1.1, List.mem_cons_of_mem _ h1.2⟩

theorem existingLookup_of_mem :
    ∀ (existing : List (FoodCoopShift × Event)),
    (existing.map (fun se => se.1.key)).Nodup →
    ∀ se ∈ existing, existingLookup existing se.1.key = some se := by
  intro existing
  induction existing with
  | nil => intro _ se h; cases h
  | cons a rest ih =>
    intro hn se hm
    rw [List.map_cons, List.nodup_cons] at hn
    rcases List.mem_cons.mp hm with rfl | hm2
    · simp [existingLookup, List.find?]
    · have hne : (a.1.key = se.1.key) = False := by
        simp only [eq_iff_iff, iff_false]
        intro hEq
        exact hn.1 (hEq ▸ List.mem_map.mpr ⟨se, hm2, rfl⟩)
      have := ih hn.2 se hm2
      simp only [existingLookup, List.find?, hne, decide_False,
        Bool.false_eq_true] at this ⊢
      simpa using this

theorem readExistingShifts_lookup (events : List Event) (k : FoodCoopShiftKey) :
    existingLookup (readExistingShifts events).1 k =
      ((events.filter
        (fun e => decide ((FoodCoopShift.from_event e).key = k))).head?).map
        (fun e => (FoodCoopShift.from_event e, e)) := by
  show existingLookup (events.foldl readExistingStep ([], [])).1 k = _
  rw [readFold_lookup]
  rfl

theorem readExistingShifts_dups (events : List Event) (k : FoodCoopShiftKey) :
    (readExistingShifts events).2.filter
        (fun e => decide ((FoodCoopShift.from_event e).key = k)) =
      (events.filter
        (fun e => decide ((FoodCoopShift.from_event e).key = k))).drop 1 := by
  show (events.foldl readExistingStep ([], [])).2.filter _ = _
  rw [readFold_dups]
  simp [existingLookup]

theorem readExistingShifts_keys_nodup (events : List Event) :
    ((readExistingShifts events).1.map (fun se => se.1.key)).Nodup :=
  readFold_keys_nodup events ([], []) (by simp)

theorem readExistingShifts_mem (events : List Event)
    (se : FoodCoopShift × Event) (h : se ∈ (readExistingShifts events).1) :
    se.1 = FoodCoopShift.from_event se.2 ∧ se.2 ∈ events :=
  (readFold_mem events ([], []) se h).resolve_left (by simp)

/-! ## Claim C6 -/

/-- Claim C6: iterating the existing events in source order, the state
reader keeps exactly the first-seen event of each ShiftKey (the
reconstructed map at key `k` is the head of the key-`k` subsequence,
paired with its decoded shift), deletes every later-seen event with an
already-seen key (the key-`k` duplicates are exactly the tail of the
key-`k` subsequence), the map has at most one entry per key (its keys
are nodup), and given exactly two events sharing a key, exactly the
later-seen one is deleted while the first stays in the map. -/
theorem C6_duplicate_suppression (events : List Event) (k : FoodCoopShiftKey) :
    existingLookup (readExistingShifts events).1 k =
      ((events.filter
        (fun e => decide ((FoodCoopShift.from_event e).key = k))).head?).map
        (fun e => (FoodCoopShift.from_event e, e)) ∧
    (readExistingShifts events).2.filter
        (fun e => decide ((FoodCoopShift.from_event e).key = k)) =
      (events.filter
        (fun e => decide ((FoodCoopShift.from_event e).key = k))).drop 1 ∧
    ((readExistingShifts events).1.map (fun se => se.1.key)).Nodup ∧
    (∀ e1 e2, events.filter
        (fun e => decide ((FoodCoopShift.from_event e).key = k)) = [e1, e2] →
      existingLookup (readExistingShifts events).1 k =
        some (FoodCoopShift.from_event e1, e1) ∧
      (readExistingShifts events).2.filter
        (fun e => decide ((FoodCoopShift.from_event e).key = k)) = [e2]) := by
  refine ⟨readExistingShifts_lookup events k, readExistingShifts_dups events k,
    readExistingShifts_keys_nodup events, ?_⟩
  intro e1 e2 hfilter
  constructor
  · rw [readExistingShifts_lookup, hfilter]; rfl
  · rw [readExistingShifts_dups, hfilter]; rfl

/-- Witness for `C6_duplicate_suppression` at two concrete events
sharing a key: the second is deleted, the first is kept. -/
theorem C6_duplicate_suppression_witness :
    existingLookup (readExistingShifts
      [{ summary := "🧹 Volunteer", start := ⟨2025, 5, 12, 9, 0⟩,
         «end» := ⟨2025, 5, 12, 11, 45⟩, description := "a",
         location := "Park Slope Food Coop" },
       { summary := "🧹 Volunteer", start := ⟨2025, 5, 12, 9, 0⟩,
         «end» := ⟨2025, 5, 12, 11, 45⟩, description := "b",
         location := "Park Slope Food Coop" }]).1
      { start_time := ⟨2025, 5, 12, 9, 0⟩, label := "🧹 Volunteer" } =
      some (FoodCoopShift.from_event
        { summary := "🧹 Volunteer", start := ⟨2025, 5, 12, 9, 0⟩,
          «end» := ⟨2025, 5, 12, 11, 45⟩, description := "a",
          location := "Park Slope Food Coop" },
        { summary := "🧹 Volunteer", start := ⟨2025, 5, 12, 9, 0⟩,
          «end» := ⟨2025, 5, 12, 11, 45⟩, description := "a",
          location := "Park Slope Food Coop" }) ∧
    (readExistingShifts
      [{ summary := "🧹 Volunteer", start := ⟨2025, 5, 12, 9, 0⟩,
         «end» := ⟨2025, 5, 12, 11, 45⟩, description := "a",
         location := "Park Slope Food Coop" },
       { summary := "🧹 Volunteer", start := ⟨2025, 5, 12, 9, 0⟩,
         «end» := ⟨2025, 5, 12, 11, 45⟩, description := "b",
         location := "Park Slope Food Coop" }]).2.filter
      (fun e => decide ((FoodCoopShift.from_event e).key =
        { start_time := ⟨2025, 5, 12, 9, 0⟩, label := "🧹 Volunteer" })) =
      [{ summary := "🧹 Volunteer", start := ⟨2025, 5, 12, 9, 0⟩,
         «end» := ⟨2025, 5, 12, 11, 45⟩, description := "b",
         location := "Park Slope Food Coop" }] :=
  (C6_duplicate_suppression _ _).2.2.2 _ _ (by decide)

/-! ## Claim C7 -/

/-- Claim C7: for every (shift, event) pair selected for update, the
written event differs from the stored one only in its description, which
is re-encoded from the scraped shift; start, end, summary and location
are untouched.  Selection means: the pair comes from an entry of the
existing map whose key the scraped dict maps to this shift with an
unequal urls set. -/
theorem C7_update_frame (shifts : List FoodCoopShift) (events : List Event)
    (p : FoodCoopShift) (e : Event)
    (h : (p, e) ∈
      (reconcile_shifts_to_google_calendar shifts events).shifts_to_update) :
    (update_event_description p e).start = e.start ∧
    (update_event_description p e).«end» = e.«end» ∧
    (update_event_description p e).summary = e.summary ∧
    (update_event_description p e).location = e.location ∧
    (update_event_description p e).description =
      (create_event_from_shift p).description ∧
    ∃ s, (s, e) ∈
      (reconcile_shifts_to_google_calendar shifts events).existing_shifts_for_key
      ∧ parsedLookup (parsed_shifts_for_key shifts) s.key = some p ∧
      s.urls ≠ p.urls := by
  refine ⟨rfl, rfl, rfl, rfl, rfl, ?_⟩
  simp only [reconcile_shifts_to_google_calendar] at h ⊢
  rw [List.mem_filterMap] at h
  obtain ⟨se, hse, hf⟩ := h
  cases hp : parsedLookup (parsed_shifts_for_key shifts) se.1.key with
  | none => rw [hp] at hf; cases hf
  | some q =>
    rw [hp] at hf
    rw [show (match some q with
      | some p => if se.1.urls ≠ p.urls then some (p, se.2) else none
      | none => none) =
        if se.1.urls ≠ q.urls then some (q, se.2) else none from rfl] at hf
    by_cases hne : se.1.urls ≠ q.urls
    · rw [if_pos hne] at hf
      simp only [Option.some.injEq, Prod.mk.injEq] at hf
      obtain ⟨hq, he⟩ := hf
      subst hq
      subst he
      exact ⟨se.1, hse, hp, hne⟩
    · rw [if_neg hne] at hf; cases hf

/-- Witness for `C7_update_frame`: a concrete calendar whose one event
has key equal to the one scraped shift but a different urls set, so the
update list contains exactly that pair, and the update only rewrites the
description. -/
theorem C7_update_frame_witness :
    (update_event_description
      { key := { start_time := ⟨2025, 5, 12, 9, 0⟩, label := "🧹 Volunteer" },
        urls := {"https://members.foodcoop.com/b"} }
      (create_event_from_shift
        { key := { start_time := ⟨2025, 5, 12, 9, 0⟩, label := "🧹 Volunteer" },
          urls := {"https://members.foodcoop.com/a"} })).start =
      (create_event_from_shift
        { key := { start_time := ⟨2025, 5, 12, 9, 0⟩, label := "🧹 Volunteer" },
          urls := {"https://members.foodcoop.com/a"} }).start ∧
    (update_event_description
      { key := { start_time := ⟨2025, 5, 12, 9, 0⟩, label := "🧹 Volunteer" },
        urls := {"https://members.foodcoop.com/b"} }
      (create_event_from_shift
        { key := { start_time := ⟨2025, 5, 12, 9, 0⟩, label := "🧹 Volunteer" },
          urls := {"https://members.foodcoop.com/a"} })).«end» =
      (create_event_from_shift
        { key := { start_time := ⟨2025, 5, 12, 9, 0⟩, label := "🧹 Volunteer" },
          urls := {"https://members.foodcoop.com/a"} }).«end» ∧
    (update_event_description
      { key := { start_time := ⟨2025, 5, 12, 9, 0⟩, label := "🧹 Volunteer" },
        urls := {"https://members.foodcoop.com/b"} }
      (create_event_from_shift
        { key := { start_time := ⟨2025, 5, 12, 9, 0⟩, label := "🧹 Volunteer" },
          urls := {"https://members.foodcoop.com/a"} })).summary =
      (create_event_from_shift
        { key := { start_time := ⟨2025, 5, 12, 9, 0⟩, label := "🧹 Volunteer" },
          urls := {"https://members.foodcoop.com/a"} }).summary ∧
    (update_event_description
      { key := { start_time := ⟨2025, 5, 12, 9, 0⟩, label := "🧹 Volunteer" },
        urls := {"https://members.foodcoop.com/b"} }
      (create_event_from_shift
        { key := { start_time := ⟨2025, 5, 12, 9, 0⟩, label := "🧹 Volunteer" },
          urls := {"https://members.foodcoop.com/a"} })).location =
      (create_event_from_shift
        { key := { start_time := ⟨2025, 5, 12, 9, 0⟩, label := "🧹 Volunteer" },
          urls := {"https://members.foodcoop.com/a"} }).location ∧
    (update_event_description
      { key := { start_time := ⟨2025, 5, 12, 9, 0⟩, label := "🧹 Volunteer" },
        urls := {"https://members.foodcoop.com/b"} }
      (create_event_from_shift
        { key := { start_time := ⟨2025, 5, 12, 9, 0⟩, label := "🧹 Volunteer" },
          urls := {"https://members.foodcoop.com/a"} })).description =
      (create_event_from_shift
        { key := { start_time := ⟨2025, 5, 12, 9, 0⟩, label := "🧹 Volunteer" },
          urls := {"https://members.foodcoop.com/b"} }).description ∧
    ∃ s, (s, create_event_from_shift
        { key := { start_time := ⟨2025, 5, 12, 9, 0⟩, label := "🧹 Volunteer" },
          urls := {"https://members.foodcoop.com/a"} }) ∈
      (reconcile_shifts_to_google_calendar
        [{ key := { start_time := ⟨2025, 5, 12, 9, 0⟩, label := "🧹 Volunteer" },
           urls := {"https://members.foodcoop.com/b"} }]
        [create_event_from_shift
          { key := { start_time := ⟨2025, 5, 12, 9, 0⟩,
                     label := "🧹 Volunteer" },
            urls := {"https://members.foodcoop.com/a"} }]).existing_shifts_for_key
      ∧ parsedLookup (parsed_shifts_for_key
          [{ key := { start_time := ⟨2025, 5, 12, 9, 0⟩,
                      label := "🧹 Volunteer" },
             urls := {"https://members.foodcoop.com/b"} }]) s.key =
        some { key := { start_time := ⟨2025, 5, 12, 9, 0⟩,
                        label := "🧹 Volunteer" },
               urls := {"https://members.foodcoop.com/b"} } ∧
      s.urls ≠ {"https://members.foodcoop.com/b"} :=
  C7_update_frame
    [{ key := { start_time := ⟨2025, 5, 12, 9, 0⟩, label := "🧹 Volunteer" },
       urls := {"https://members.foodcoop.com/b"} }]
    [create_event_from_shift
      { key := { start_time := ⟨2025, 5, 12, 9, 0⟩, label := "🧹 Volunteer" },
        urls := {"https://members.foodcoop.com/a"} }]
    { key := { start_time := ⟨2025, 5, 12, 9, 0⟩, label := "🧹 Volunteer" },
      urls := {"https://members.foodcoop.com/b"} }
    (create_event_from_shift
      { key := { start_time := ⟨2025, 5, 12, 9, 0⟩, label := "🧹 Volunteer" },
        urls := {"https://members.foodcoop.com/a"} })
    (by decide)

/-! ## Claim C5 -/

theorem existingLookup_none_iff (events : List Event) (k : FoodCoopShiftKey) :
    existingLookup (readExistingShifts events).1 k = none ↔
      ∀ e ∈ events, (FoodCoopShift.from_event e).key ≠ k := by
  rw [readExistingShifts_lookup, Option.map_eq_none', List.head?_eq_none_iff,
    List.filter_eq_nil_iff]
  simp

/-- Claim C5: the three operation lists are exactly as specified.  An
event is created for exactly the scraped keys with no existing event
(one per list occurrence; the key set is as stated); an event is removed
exactly when it is the kept (first-seen) event of its key and no scraped
shift has that key (duplicate events flagged during state reading are
deleted separately, in `duplicate_events_deleted`); an update is issued
for exactly the pairs (last scraped shift of the key, kept event of the
key) whose urls sets are unequal; a key in both maps with equal urls
sets gets no operation. -/
theorem C5_diff_exact (shifts : List FoodCoopShift) (events : List Event) :
    (∀ k, (∃ s ∈ (reconcile_shifts_to_google_calendar shifts
        events).shifts_to_add, s.key = k) ↔
      ((∃ s ∈ shifts, s.key = k) ∧
        ¬ ∃ e ∈ events, (FoodCoopShift.from_event e).key = k)) ∧
    (∀ e, e ∈ (reconcile_shifts_to_google_calendar shifts
        events).events_to_remove ↔
      ((events.filter (fun e2 => decide ((FoodCoopShift.from_event e2).key =
          (FoodCoopShift.from_event e).key))).head? = some e ∧
        ¬ ∃ s ∈ shifts, s.key = (FoodCoopShift.from_event e).key)) ∧
    (∀ p e, (p, e) ∈ (reconcile_shifts_to_google_calendar shifts
        events).shifts_to_update ↔
      ((events.filter (fun e2 => decide ((FoodCoopShift.from_event e2).key =
          p.key))).head? = some e ∧
        shifts.reverse.find? (fun s => decide (s.key = p.key)) = some p ∧
        (FoodCoopShift.from_event e).urls ≠ p.urls)) := by
  refine ⟨?_, ?_, ?_⟩
  ·
    intro k
    simp only [reconcile_shifts_to_google_calendar]
    constructor
    · rintro ⟨s, hs, rfl⟩
      rw [List.mem_filter] at hs
      obtain ⟨hmem, hnone⟩ := hs
      refine ⟨⟨s, hmem, rfl⟩, ?_⟩
      rw [Option.isNone_iff_eq_none] at hnone
      rw [existingLookup_none_iff] at hnone
      rintro ⟨e, he, hkey⟩
      exact hnone e he hkey
    · rintro ⟨⟨s, hs, rfl⟩, hne⟩
      refine ⟨s, ?_, rfl⟩
      rw [List.mem_filter]
      refine ⟨hs, ?_⟩
      rw [Option.isNone_iff_eq_none, existingLookup_none_iff]
      intro e he hkey
      exact hne ⟨e, he, hkey⟩
  ·
    intro e
    simp only [reconcile_shifts_to_google_calendar]
    constructor
    · intro h
      rw [List.mem_map] at h
      obtain ⟨se, hse, he⟩ := h
      rw [List.mem_filter] at hse
      obtain ⟨hmem, hnone⟩ := hse
      obtain ⟨hfe, hev⟩ := readExistingShifts_mem events se hmem
      have hlook := existingLookup_of_mem (readExistingShifts events).1
        (readExistingShifts_keys_nodup events) se hmem
      rw [readExistingShifts_lookup] at hlook
      subst he
      rw [hfe] at hlook hnone
      constructor
      · cases hh : (events.filter (fun e2 =>
          decide ((FoodCoopShift.from_event e2).key =
            (FoodCoopShift.from_event se.2).key))).head? with
        | none => rw [hh] at hlook; cases hlook
        | some e0 =>
          rw [hh] at hlook
          simp only [Option.map_some', Option.some.injEq] at hlook
          rw [← hlook]
      · rw [Option.isNone_iff_eq_none, parsedLookup_eq_none_iff] at hnone
        rintro ⟨s, hs, hk⟩
        exact hnone s hs hk
    · rintro ⟨hhead, hne⟩
      rw [List.mem_map]
      have hlook : existingLookup (readExistingShifts events).1
          (FoodCoopShift.from_event e).key =
          some (FoodCoopShift.from_event e, e) := by
        rw [readExistingShifts_lookup, hhead]
        rfl
      have hmem : (FoodCoopShift.from_event e, e) ∈
          (readExistingShifts events).1 :=
        List.mem_of_find?_eq_some hlook
      refine ⟨(FoodCoopShift.from_event e, e), ?_, rfl⟩
      rw [List.mem_filter]
      refine ⟨hmem, ?_⟩
      rw [Option.isNone_iff_eq_none, parsedLookup_eq_none_iff]
      intro s hs hk
      exact hne ⟨s, hs, hk⟩
  ·
    intro p e
    simp only [reconcile_shifts_to_google_calendar]
    constructor
    · intro h
      rw [List.mem_filterMap] at h
      obtain ⟨se, hse, hf⟩ := h
      cases hp : parsedLookup (parsed_shifts_for_key shifts) se.1.key with
      | none => rw [hp] at hf; cases hf
      | some q =>
        rw [hp] at hf
        rw [show (match some q with
          | some p => if se.1.urls ≠ p.urls then some (p, se.2) else none
          | none => none) =
            if se.1.urls ≠ q.urls then some (q, se.2) else none from rfl] at hf
        by_cases hne : se.1.urls ≠ q.urls
        · rw [if_pos hne] at hf
          simp only [Option.some.injEq, Prod.mk.injEq] at hf
          obtain ⟨hq, he⟩ := hf
          subst hq
          subst he
          obtain ⟨hfe, _⟩ := readExistingShifts_mem events se hse
          have hpk : q.key = se.1.key := (parsedLookup_some shifts _ q hp).2
          have hlook := existingLookup_of_mem (readExistingShifts events).1
            (readExistingShifts_keys_nodup events) se hse
          rw [readExistingShifts_lookup] at hlook
          refine ⟨?_, ?_, ?_⟩
          · rw [hpk]
            cases hh : (events.filter (fun e2 =>
                decide ((FoodCoopShift.from_event e2).key = se.1.key))).head? with
            | none => rw [hh] at hlook; cases hlook
            | some e0 =>
              rw [hh] at hlook
              simp only [Option.map_some', Option.some.injEq] at hlook
              rw [← hlook]
          · rw [hpk, ← parsedLookup_eq_findLast]
            exact hp
          · rw [← hfe]
            exact hne
        · rw [if_neg hne] at hf; cases hf
    · rintro ⟨hhead, hfind, hne⟩
      rw [List.mem_filterMap]
      have hkey : (FoodCoopShift.from_event e).key = p.key := by
        cases hl : events.filter (fun e2 =>
            decide ((FoodCoopShift.from_event e2).key = p.key)) with
        | nil => rw [hl] at hhead; cases hhead
        | cons a t =>
          rw [hl] at hhead
          simp only [List.head?_cons, Option.some.injEq] at hhead
          have : e ∈ events.filter (fun e2 =>
              decide ((FoodCoopShift.from_event e2).key = p.key)) := by
            rw [hl]; exact List.mem_cons.mpr (Or.inl hhead.symm)
          simpa using (List.mem_filter.mp this).2
      have hlook : existingLookup (readExistingShifts events).1 p.key =
          some (FoodCoopShift.from_event e, e) := by
        rw [readExistingShifts_lookup, hhead]
        rfl
      have hmem : (FoodCoopShift.from_event e, e) ∈
          (readExistingShifts events).1 :=
        List.mem_of_find?_eq_some hlook
      refine ⟨(FoodCoopShift.from_event e, e), hmem, ?_⟩
      rw [show ((FoodCoopShift.from_event e, e) :
        FoodCoopShift × Event).1.key = p.key from hkey]
      rw [parsedLookup_eq_findLast, hfind]
      rw [show (match some p with
        | some q => if (FoodCoopShift.from_event e).urls ≠ q.urls then
            some (q, e) else none
        | none => none) =
          if (FoodCoopShift.from_event e).urls ≠ p.urls then some (p, e)
          else none from rfl]
      rw [if_pos hne]

/-! ## Claim C10 -/

/-- Claim C10: `FoodCoopShift.from_event` is a total function of the
event's start, summary and description (stated as a closed-form
equation: the embedding can evaluate it on every event, so no exception
path exists); every description line whose trimmed content does not
start with "<li>" is ignored, so a description with no such line yields
`urls = ∅`; and a reconstructed empty-urls shift participates normally
in reconciliation: if the scraped dict maps its key to a shift with a
non-empty urls set, that pair enters the update list. -/
theorem C10_from_event_total (ev : Event) :
    (FoodCoopShift.from_event ev =
      { key := { start_time := ev.start, label := ev.summary },
        urls := (((pySplitlines ev.description).filter
          (fun line => pyStartsWith (pyStrip line) "<li>")).map
            decodeLine).toFinset }) ∧
    ((∀ line ∈ pySplitlines ev.description,
        pyStartsWith (pyStrip line) "<li>" = false) →
      (FoodCoopShift.from_event ev).urls = ∅) ∧
    (∀ (shifts : List FoodCoopShift) (events : List Event)
      (s : FoodCoopShift) (e : Event) (p : FoodCoopShift),
      (s, e) ∈ (reconcile_shifts_to_google_calendar shifts
        events).existing_shifts_for_key →
      s.urls = ∅ →
      parsedLookup (parsed_shifts_for_key shifts) s.key = some p →
      p.urls ≠ ∅ →
      (p, e) ∈ (reconcile_shifts_to_google_calendar shifts
        events).shifts_to_update) := by
  refine ⟨rfl, ?_, ?_⟩
  · intro hnone
    show (((pySplitlines ev.description).filter
      (fun line => pyStartsWith (pyStrip line) "<li>")).map
        decodeLine).toFinset = ∅
    rw [List.filter_eq_nil_iff.mpr (by
      intro a ha
      simp [hnone a ha])]
    rfl
  · intro shifts events s e p hmem hempty hp hpne
    simp only [reconcile_shifts_to_google_calendar] at hmem ⊢
    rw [List.mem_filterMap]
    refine ⟨(s, e), hmem, ?_⟩
    rw [show ((s, e) : FoodCoopShift × Event).1.key = s.key from rfl, hp]
    rw [show (match some p with
      | some q => if ((s, e) : FoodCoopShift × Event).1.urls ≠ q.urls then
          some (q, ((s, e) : FoodCoopShift × Event).2) else none
      | none => none) =
        if s.urls ≠ p.urls then some (p, e) else none from rfl]
    rw [if_pos (by rw [hempty]; exact fun h => hpne h.symm)]

/-- Witness for `C10_from_event_total`: an event whose description holds
no `<li>` line decodes to an empty urls set, and reconciling a scraped
shift with the same key and a non-empty urls set puts that pair in the
update list. -/
theorem C10_from_event_total_witness :
    (FoodCoopShift.from_event
      { summary := "🧹 Volunteer", start := ⟨2025, 5, 12, 9, 0⟩,
        «end» := ⟨2025, 5, 12, 11, 45⟩,
        description := "no links today\n<ul>\n</ul>",
        location := "Park Slope Food Coop" }).urls = ∅ ∧
    ({ key := { start_time := ⟨2025, 5, 12, 9, 0⟩, label := "🧹 Volunteer" },
       urls := {"https://members.foodcoop.com/a"} },
     ({ summary := "🧹 Volunteer", start := ⟨2025, 5, 12, 9, 0⟩,
        «end» := ⟨2025, 5, 12, 11, 45⟩,
        description := "no links today\n<ul>\n</ul>",
        location := "Park Slope Food Coop" } : Event)) ∈
      (reconcile_shifts_to_google_calendar
        [{ key := { start_time := ⟨2025, 5, 12, 9, 0⟩,
                    label := "🧹 Volunteer" },
           urls := {"https://members.foodcoop.com/a"} }]
        [{ summary := "🧹 Volunteer", start := ⟨2025, 5, 12, 9, 0⟩,
           «end» := ⟨2025, 5, 12, 11, 45⟩,
           description := "no links today\n<ul>\n</ul>",
           location := "Park Slope Food Coop" }]).shifts_to_update :=
  ⟨(C10_from_event_total
      { summary := "🧹 Volunteer", start := ⟨2025, 5, 12, 9, 0⟩,
        «end» := ⟨2025, 5, 12, 11, 45⟩,
        description := "no links today\n<ul>\n</ul>",
        location := "Park Slope Food Coop" }).2.1 (by decide),
   (C10_from_event_total
      { summary := "🧹 Volunteer", start := ⟨2025, 5, 12, 9, 0⟩,
        «end» := ⟨2025, 5, 12, 11, 45⟩,
        description := "no links today\n<ul>\n</ul>",
        location := "Park Slope Food Coop" }).2.2
    [{ key := { start_time := ⟨2025, 5, 12, 9, 0⟩, label := "🧹 Volunteer" },
       urls := {"https://members.foodcoop.com/a"} }]
    [{ summary := "🧹 Volunteer", start := ⟨2025, 5, 12, 9, 0⟩,
       «end» := ⟨2025, 5, 12, 11, 45⟩,
       description := "no links today\n<ul>\n</ul>",
       location := "Park Slope Food Coop" }]
    (FoodCoopShift.from_event
      { summary := "🧹 Volunteer", start := ⟨2025, 5, 12, 9, 0⟩,
        «end» := ⟨2025, 5, 12, 11, 45⟩,
        description := "no links today\n<ul>\n</ul>",
        location := "Park Slope Food Coop" })
    { summary := "🧹 Volunteer", start := ⟨2025, 5, 12, 9, 0⟩,
      «end» := ⟨2025, 5, 12, 11, 45⟩,
      description := "no links today\n<ul>\n</ul>",
      location := "Park Slope Food Coop" }
    { key := { start_time := ⟨2025, 5, 12, 9, 0⟩, label := "🧹 Volunteer" },
      urls := {"https://members.foodcoop.com/a"} }
    (by decide) (by decide) (by decide) (by decide)⟩

theorem processRawShift_error_of_empty_href (date : String) (e : RawShiftData)
    (h : pyStrip e.href = "") :
    processRawShift date e = .error .urlMissing := by
  unfold processRawShift
  rw [if_pos h]

theorem processRawShift_ok_facts (date : String) (e : RawShiftData)
    (k : FoodCoopShiftKey) (u : String)
    (h : processRawShift date e = .ok (k, u)) :
    pyStrip e.href ≠ "" ∧
    u = FOODCOOP_URL ++ pyRstripChars (pyStrip (pyStrip e.href)) "/" ∧
    strptime_mdy_imp (date ++ " " ++ pyStrip e.time) = some k.start_time := by
  unfold processRawShift at h
  by_cases hurl : pyStrip e.href = ""
  · rw [if_pos hurl] at h; cases h
  · rw [if_neg hurl] at h
    simp only at h
    refine ⟨hurl, ?_⟩
    split at h
    · cases h
    · split at h
      · cases h
      · split at h
        · cases h
        · next start_time heq =>
          simp only [Except.ok.injEq, Prod.mk.injEq] at h
          obtain ⟨hk, hu⟩ := h
          exact ⟨hu.symm, by rw [heq, ← hk]⟩

theorem processAll_forall2 (date : String) :
    ∀ (l : List RawShiftData) (pairs : List (FoodCoopShiftKey × String)),
    processAllRawShifts date l = .ok pairs →
    List.Forall₂ (fun e p => processRawShift date e = .ok p) l pairs := by
  intro l
  induction l with
  | nil =>
    intro pairs h
    unfold processAllRawShifts at h
    simp only [Except.ok.injEq] at h
    subst h
    exact List.Forall₂.nil
  | cons e rest ih =>
    intro pairs h
    unfold processAllRawShifts at h
    split at h
    · cases h
    · next p hp =>
      split at h
      · cases h
      · next ps hps =>
        simp only [Except.ok.injEq] at h
        subst h
        exact List.Forall₂.cons hp (ih ps hps)

theorem forall2_mem_right {α β : Type} {R : α → β → Prop}
    {l : List α} {ys : List β} (h : List.Forall₂ R l ys) :
    ∀ y ∈ ys, ∃ x ∈ l, R x y := by
  induction h with
  | nil => intro y hy; cases hy
  | cons hab _ ih =>
    intro y hy
    rcases List.mem_cons.mp hy with rfl | hy2
    · exact ⟨_, List.mem_cons_self _ _, hab⟩
    · obtain ⟨x, hx, hr⟩ := ih y hy2
      exact ⟨x, List.mem_cons_of_mem _ hx, hr⟩

theorem forall2_mem_left {α β : Type} {R : α → β → Prop}
    {l : List α} {ys : List β} (h : List.Forall₂ R l ys) :
    ∀ x ∈ l, ∃ y ∈ ys, R x y := by
  induction h with
  | nil => intro x hx; cases hx
  | cons hab _ ih =>
    intro x hx
    rcases List.mem_cons.mp hx with rfl | hx2
    · exact ⟨_, List.mem_cons_self _ _, hab⟩
    · obtain ⟨y, hy, hr⟩ := ih x hx2
      exact ⟨y, List.mem_cons_of_mem _ hy, hr⟩

theorem processAll_error_of_mem (date : String) :
    ∀ (l : List RawShiftData) (e : RawShiftData), e ∈ l →
    (∀ out, processRawShift date e ≠ .ok out) →
    ∀ pairs, processAllRawShifts date l ≠ .ok pairs := by
  intro l e hmem hbad pairs h
  obtain ⟨p, _, hp⟩ := forall2_mem_left (processAll_forall2 date l pairs h) e hmem
  exact hbad p hp

theorem setdefaultAppend_find? :
    ∀ (acc : List (FoodCoopShiftKey × List String))
      (k : FoodCoopShiftKey) (u : String) (k' : FoodCoopShiftKey),
    (setdefaultAppend acc k u).find? (fun p => decide (p.1 = k')) =
      (if k = k' then
        some (k, ((((acc.find? (fun p => decide (p.1 = k))).map
          (fun p => p.2)).getD []) ++ [u]))
      else acc.find? (fun p => decide (p.1 = k'))) := by
  intro acc
  induction acc with
  | nil =>
    intro k u k'
    by_cases h : k = k' <;> simp [setdefaultAppend, List.find?, h]
  | cons p0 rest ih =>
    intro k u k'
    obtain ⟨k0, us⟩ := p0
    unfold setdefaultAppend
    by_cases h0 : k0 = k
    · rw [if_pos h0]
      subst h0
      by_cases h' : k0 = k' <;> simp [List.find?, h']
    · rw [if_neg h0]
      by_cases h' : k0 = k'
      · subst h'
        have hk : ¬ (k = k0) := fun h => h0 h.symm
        simp [List.find?, hk, h0]
      · simp [List.find?, h', h0, ih]

theorem groupFold_find? (ps : List (FoodCoopShiftKey × String)) :
    ∀ (acc : List (FoodCoopShiftKey × List String)) (k : FoodCoopShiftKey),
    ((ps.foldl (fun acc p => setdefaultAppend acc p.1 p.2) acc).find?
      (fun p => decide (p.1 = k))).map (fun p => p.2) =
      (if (ps.filter (fun p => decide (p.1 = k))) = [] then
        (acc.find? (fun p => decide (p.1 = k))).map (fun p => p.2)
      else some (((((acc.find? (fun p => decide (p.1 = k))).map
          (fun p => p.2)).getD []) ++
        (ps.filter (fun p => decide (p.1 = k))).map (fun p => p.2)))) := by
  induction ps with
  | nil => intro acc k; simp
  | cons p0 ps ih =>
    intro acc k
    obtain ⟨k0, u0⟩ := p0
    show ((ps.foldl _ (setdefaultAppend acc k0 u0)).find? _).map _ = _
    rw [ih]
    rw [setdefaultAppend_find?]
    by_cases h0 : k0 = k
    · subst h0
      rw [if_pos rfl]
      by_cases hf : ps.filter (fun p => decide (p.1 = k0)) = []
      · simp [List.filter_cons, hf]
      · simp [List.filter_cons, hf]
    · rw [if_neg h0]
      by_cases hf : ps.filter (fun p => decide (p.1 = k)) = [] <;>
        simp [List.filter_cons, h0, hf]

theorem setdefaultAppend_keys (acc : List (FoodCoopShiftKey × List String))
    (k : FoodCoopShiftKey) (u : String) :
    (setdefaultAppend acc k u).map (fun p => p.1) =
      (if (acc.find? (fun p => decide (p.1 = k))).isSome
       then acc.map (fun p => p.1)
       else acc.map (fun p => p.1) ++ [k]) := by
  induction acc with
  | nil => simp [setdefaultAppend, List.find?]
  | cons p0 rest ih =>
    obtain ⟨k0, us⟩ := p0
    unfold setdefaultAppend
    by_cases h0 : k0 = k
    · rw [if_pos h0]
      simp [List.find?, h0]
    · rw [if_neg h0]
      simp only [List.map_cons, List.find?, h0, decide_False,
        Bool.false_eq_true, ih]
      by_cases hf : (rest.find? (fun p => decide (p.1 = k))).isSome <;>
        simp [hf, h0]

theorem groupFold_keys_nodup (ps : List (FoodCoopShiftKey × String)) :
    ∀ (acc : List (FoodCoopShiftKey × List String)),
    ((acc.map (fun p => p.1)).Nodup) →
    (((ps.foldl (fun acc p => setdefaultAppend acc p.1 p.2) acc).map
      (fun p => p.1)).Nodup) := by
  induction ps with
  | nil => intro acc h; exact h
  | cons p0 ps ih =>
    intro acc h
    obtain ⟨k0, u0⟩ := p0
    show ((ps.foldl _ (setdefaultAppend acc k0 u0)).map _).Nodup
    apply ih
    rw [setdefaultAppend_keys]
    by_cases hf : (acc.find? (fun p => decide (p.1 = k0))).isSome
    · rw [if_pos hf]; exact h
    · rw [if_neg hf]
      rw [List.nodup_append]
      refine ⟨h, List.nodup_singleton _, ?_⟩
      intro a ha hb
      simp only [List.mem_singleton] at hb
      subst hb
      obtain ⟨q, hq, hqk⟩ := List.mem_map.mp ha
      have := List.find?_eq_none.mp
        (Option.not_isSome_iff_eq_none.mp hf) q hq
      simp [hqk] at this

theorem find?_of_mem_keyed :
    ∀ (l : List (FoodCoopShiftKey × List String)),
    ((l.map (fun p => p.1)).Nodup) →
    ∀ x ∈ l, l.find? (fun q => decide (q.1 = x.1)) = some x := by
  intro l
  induction l with
  | nil => intro _ x h; cases h
  | cons a rest ih =>
    intro hn x hm
    rw [List.map_cons, List.nodup_cons] at hn
    rcases List.mem_cons.mp hm with rfl | hm2
    · simp [List.find?]
    · have hne : (a.1 = x.1) = False := by
        simp only [eq_iff_iff, iff_false]
        intro hEq
        exact hn.1 (hEq ▸ List.mem_map.mpr ⟨x, hm2, rfl⟩)
      have := ih hn.2 x hm2
      simp only [List.find?, hne, decide_False, Bool.false_eq_true]
      simpa using this

theorem groupShiftsForKey_mem (pairs : List (FoodCoopShiftKey × String))
    (k : FoodCoopShiftKey) (us : List String)
    (h : (k, us) ∈ groupShiftsForKey pairs) :
    us = (pairs.filter (fun p => decide (p.1 = k))).map (fun p => p.2) ∧
    us ≠ [] := by
  have hn : ((groupShiftsForKey pairs).map (fun p => p.1)).Nodup :=
    groupFold_keys_nodup pairs [] (by simp)
  have hf := find?_of_mem_keyed _ hn (k, us) h
  have hg := groupFold_find? pairs [] k
  rw [show (pairs.foldl (fun acc p => setdefaultAppend acc p.1 p.2) []) =
    groupShiftsForKey pairs from rfl] at hg
  rw [hf] at hg
  by_cases hflt : pairs.filter (fun p => decide (p.1 = k)) = []
  · rw [if_pos hflt] at hg
    simp [List.find?] at hg
  · rw [if_neg hflt] at hg
    simp only [List.find?, Option.map_some', Option.some.injEq,
      Option.map_none', Option.getD_none, List.nil_append] at hg
    exact ⟨hg, by
      rw [hg]
      intro hmap
      exact hflt (List.map_eq_nil_iff.mp hmap)⟩

theorem groupShiftsForKey_covers (pairs : List (FoodCoopShiftKey × String))
    (k : FoodCoopShiftKey) :
    (∃ us, (k, us) ∈ groupShiftsForKey pairs) ↔ ∃ u, (k, u) ∈ pairs := by
  constructor
  · rintro ⟨us, hus⟩
    obtain ⟨heq, hne⟩ := groupShiftsForKey_mem pairs k us hus
    cases hflt : pairs.filter (fun p => decide (p.1 = k)) with
    | nil => rw [hflt] at heq; simp [heq] at hne
    | cons p0 t =>
      have hp0 : p0 ∈ pairs.filter (fun p => decide (p.1 = k)) := by
        rw [hflt]; exact List.mem_cons_self p0 t
      have hmem := List.mem_of_mem_filter hp0
      have hkey : p0.1 = k := by simpa using List.of_mem_filter hp0
      exact ⟨p0.2, by rw [← hkey]; exact hmem⟩
  · rintro ⟨u, hu⟩
    have hflt : pairs.filter (fun p => decide (p.1 = k)) ≠ [] :=
      List.ne_nil_of_mem (List.mem_filter.mpr ⟨hu, by simp⟩)
    have hg := groupFold_find? pairs [] k
    rw [show (pairs.foldl (fun acc p => setdefaultAppend acc p.1 p.2) []) =
      groupShiftsForKey pairs from rfl] at hg
    rw [if_neg hflt] at hg
    obtain ⟨q, hq, _⟩ := Option.map_eq_some'.mp hg
    have hq1 : q.1 = k := by simpa using List.find?_some hq
    refine ⟨q.2, ?_⟩
    rw [← hq1]
    exact List.mem_of_find?_eq_some hq

theorem mem_groupShiftsForKey_pairs (pairs : List (FoodCoopShiftKey × String))
    (k : FoodCoopShiftKey) (us : List String)
    (h : (k, us) ∈ groupShiftsForKey pairs) (u : String) :
    u ∈ us ↔ (k, u) ∈ pairs := by
  obtain ⟨heq, _⟩ := groupShiftsForKey_mem pairs k us h
  rw [heq, List.mem_map]
  constructor
  · rintro ⟨p, hp, rfl⟩
    have hmem := List.mem_of_mem_filter hp
    have hkey : p.1 = k := by simpa using List.of_mem_filter hp
    rw [← hkey]
    exact hmem
  · intro hp
    exact ⟨(k, u), List.mem_filter.mpr ⟨hp, by simp⟩, rfl⟩

theorem parse_ok_inv (day : DayData) (out : List FoodCoopShift)
    (h : parse_shifts_from_calendar_date_locator day = .ok out) :
    ¬ ((pySplit (pyStrip day.dateText)).length < 2) ∧
    ∃ pairs, processAllRawShifts
        ((pySplit (pyStrip day.dateText)).getLastD "") day.shifts =
        .ok pairs ∧
      out = (groupShiftsForKey pairs).map
        (fun ku => { key := ku.1, urls := ku.2.toFinset }) := by
  unfold parse_shifts_from_calendar_date_locator at h
  by_cases hlen : (pySplit (pyStrip day.dateText)).length < 2
  · rw [if_pos hlen] at h; cases h
  · rw [if_neg hlen] at h
    refine ⟨hlen, ?_⟩
    replace h : (match processAllRawShifts
        ((pySplit (pyStrip day.dateText)).getLastD "") day.shifts with
      | Except.error err => Except.error err
      | Except.ok pairs =>
        Except.ok ((groupShiftsForKey pairs).map
          (fun ku => { key := ku.1, urls := ku.2.toFinset }))) =
        Except.ok out := h
    cases hp : processAllRawShifts
        ((pySplit (pyStrip day.dateText)).getLastD "") day.shifts with
    | error err => rw [hp] at h; cases h
    | ok pairs =>
      rw [hp] at h
      simp only [Except.ok.injEq] at h
      exact ⟨pairs, rfl, h.symm⟩

/-! ## Claim C8 -/

/-- Claim C8: the parser fails with the date error when the trimmed date
header splits into fewer than two whitespace tokens; it cannot succeed
when any raw entry's href is empty after trimming; and on success every
emitted URL is the site base origin prefixed to some entry's trimmed
href with trailing slashes stripped, with the entry's start time parsed
from the header's last whitespace token combined with the entry's time
text. -/
theorem C8_parser_failure_modes (day : DayData) :
    ((pySplit (pyStrip day.dateText)).length < 2 →
      parse_shifts_from_calendar_date_locator day = .error .dateMissing) ∧
    ((∃ raw ∈ day.shifts, pyStrip raw.href = "") →
      ∀ out, parse_shifts_from_calendar_date_locator day ≠ .ok out) ∧
    (∀ out, parse_shifts_from_calendar_date_locator day = .ok out →
      ∀ s ∈ out, ∀ u ∈ s.urls, ∃ raw ∈ day.shifts,
        pyStrip raw.href ≠ "" ∧
        u = FOODCOOP_URL ++ pyRstripChars (pyStrip (pyStrip raw.href)) "/" ∧
        strptime_mdy_imp ((pySplit (pyStrip day.dateText)).getLastD "" ++
          " " ++ pyStrip raw.time) = some s.key.start_time) := by
  refine ⟨?_, ?_, ?_⟩
  · intro hlen
    unfold parse_shifts_from_calendar_date_locator
    rw [if_pos hlen]
  · rintro ⟨raw, hmem, hempty⟩ out h
    obtain ⟨-, pairs, hpairs, -⟩ := parse_ok_inv day out h
    refine processAll_error_of_mem _ day.shifts raw hmem ?_ pairs hpairs
    intro p hp
    rw [processRawShift_error_of_empty_href _ _ hempty] at hp
    cases hp
  · intro out h s hs u hu
    obtain ⟨-, pairs, hpairs, hout⟩ := parse_ok_inv day out h
    rw [hout] at hs
    obtain ⟨ku, hku, hsk⟩ := List.mem_map.mp hs
    rw [← hsk] at hu
    simp only at hu
    rw [List.mem_toFinset] at hu
    have hpair : (ku.1, u) ∈ pairs :=
      (mem_groupShiftsForKey_pairs pairs ku.1 ku.2 hku u).mp hu
    obtain ⟨raw, hraw, hok⟩ := forall2_mem_right
      (processAll_forall2 _ day.shifts pairs hpairs) (ku.1, u) hpair
    obtain ⟨hne, hurl, htime⟩ := processRawShift_ok_facts _ raw ku.1 u hok
    refine ⟨raw, hraw, hne, hurl, ?_⟩
    rw [htime, ← hsk]

/-- Witness for `C8_parser_failure_modes`: a one-token header fails with
the date error; an entry with a whitespace href cannot parse; a
well-formed fragment emits the resolved absolute URL with the header's
last token as the date. -/
theorem C8_parser_failure_modes_witness :
    parse_shifts_from_calendar_date_locator
      { dateText := "05/12/2025", shifts := [] } = .error .dateMissing ∧
    parse_shifts_from_calendar_date_locator
      { dateText := "Mon 05/12/2025",
        shifts := [{ href := "  ", time := "9:00AM", label := "a b c" }] } ≠
      .ok [] ∧
    ∃ raw ∈ ([{ href := "/shift/9/", time := "10:30am",
                label := "🥕 Food Processing 🔪" }] : List RawShiftData),
      pyStrip raw.href ≠ "" ∧
      "https://members.foodcoop.com/shift/9" =
        FOODCOOP_URL ++ pyRstripChars (pyStrip (pyStrip raw.href)) "/" ∧
      strptime_mdy_imp ((pySplit (pyStrip ("Mon 05/12/2025" : String))).getLastD
        "" ++ " " ++ pyStrip raw.time) =
        some (⟨2025, 5, 12, 10, 30⟩ : PyDateTime) :=
  ⟨(C8_parser_failure_modes
      { dateText := "05/12/2025", shifts := [] }).1 (by decide),
   (C8_parser_failure_modes
      { dateText := "Mon 05/12/2025",
        shifts := [{ href := "  ", time := "9:00AM", label := "a b c" }] }).2.1
      ⟨{ href := "  ", time := "9:00AM", label := "a b c" },
        by decide, by decide⟩ [],
   (C8_parser_failure_modes
      { dateText := "Mon 05/12/2025",
        shifts := [{ href := "/shift/9/", time := "10:30am",
                     label := "🥕 Food Processing 🔪" }] }).2.2
      [{ key := { start_time := ⟨2025, 5, 12, 10, 30⟩,
                  label := "🔪 Processing" },
         urls := {"https://members.foodcoop.com/shift/9"} }] (by decide)
      { key := { start_time := ⟨2025, 5, 12, 10, 30⟩,
                 label := "🔪 Processing" },
        urls := {"https://members.foodcoop.com/shift/9"} } (by decide)
      "https://members.foodcoop.com/shift/9" (by decide)⟩

/-! ## Claim C9 -/

/-- Claim C9: on a successful parse the output has exactly one shift per
distinct key occurring among the fragment's processed entries (keys are
nodup and a key is emitted iff some entry carries it); each shift's urls
set holds exactly the resolved URLs of the entries with its key; and no
emitted shift has an empty urls set. -/

theorem C9_grouping_invariants (day : DayData) (out : List FoodCoopShift)
    (h : parse_shifts_from_calendar_date_locator day = .ok out) :
    ((out.map (fun s => s.key)).Nodup) ∧
    (∀ s ∈ out, s.urls ≠ ∅) ∧
    (∀ s ∈ out, ∀ u, u ∈ s.urls ↔ ∃ raw ∈ day.shifts,
      processRawShift ((pySplit (pyStrip day.dateText)).getLastD "") raw =
        .ok (s.key, u)) ∧
    (∀ k, (∃ s ∈ out, s.key = k) ↔ (∃ raw ∈ day.shifts, ∃ u,
      processRawShift ((pySplit (pyStrip day.dateText)).getLastD "") raw =
        .ok (k, u))) := by
  obtain ⟨-, pairs, hpairs, hout⟩ := parse_ok_inv day out h
  have hforall2 := processAll_forall2 _ day.shifts pairs hpairs
  refine ⟨?_, ?_, ?_, ?_⟩
  · rw [hout, List.map_map]
    exact groupFold_keys_nodup pairs [] (by simp)
  · intro s hs
    rw [hout] at hs
    obtain ⟨ku, hku, hsk⟩ := List.mem_map.mp hs
    obtain ⟨-, hne⟩ := groupShiftsForKey_mem pairs ku.1 ku.2 hku
    rw [← hsk]
    simp only
    intro hempty
    obtain ⟨a, ha⟩ := List.exists_mem_of_ne_nil ku.2 hne
    have : a ∈ ku.2.toFinset := List.mem_toFinset.mpr ha
    rw [hempty] at this
    cases this
  · intro s hs u
    rw [hout] at hs
    obtain ⟨ku, hku, hsk⟩ := List.mem_map.mp hs
    rw [← hsk]
    simp only [List.mem_toFinset]
    rw [mem_groupShiftsForKey_pairs pairs ku.1 ku.2 hku u]
    constructor
    · intro hpair
      obtain ⟨raw, hraw, hok⟩ := forall2_mem_right hforall2 (ku.1, u) hpair
      exact ⟨raw, hraw, hok⟩
    · rintro ⟨raw, hraw, hok⟩
      obtain ⟨p, hp, hok2⟩ := forall2_mem_left hforall2 raw hraw
      rw [hok] at hok2
      simp only [Except.ok.injEq] at hok2
      rw [hok2]
      exact hp
  · intro k
    constructor
    · rintro ⟨s, hs, rfl⟩
      rw [hout] at hs
      obtain ⟨ku, hku, hsk⟩ := List.mem_map.mp hs
      have hkey : ku.1 = s.key := congrArg FoodCoopShift.key hsk
      obtain ⟨u, hu⟩ := (groupShiftsForKey_covers pairs ku.1).mp ⟨ku.2, hku⟩
      obtain ⟨raw, hraw, hok⟩ := forall2_mem_right hforall2 (ku.1, u) hu
      rw [hkey] at hok
      exact ⟨raw, hraw, u, hok⟩
    · rintro ⟨raw, hraw, u, hok⟩
      obtain ⟨p, hp, hok2⟩ := forall2_mem_left hforall2 raw hraw
      rw [hok] at hok2
      simp only [Except.ok.injEq] at hok2
      rw [← hok2] at hp
      obtain ⟨us, hus⟩ := (groupShiftsForKey_covers pairs k).mpr ⟨u, hp⟩
      refine ⟨{ key := k, urls := us.toFinset }, ?_, rfl⟩
      rw [hout]
      exact List.mem_map.mpr ⟨(k, us), hus, rfl⟩

/-- Witness for `C9_grouping_invariants` at a concrete well-formed
fragment. -/
theorem C9_grouping_invariants_witness :
    (([{ key := { start_time := (⟨2025, 5, 12, 10, 30⟩ : PyDateTime),
                  label := "🔪 Processing" },
         urls := {"https://members.foodcoop.com/shift/9"} }] :
      List FoodCoopShift).map (fun s => s.key)).Nodup ∧
    ({ key := { start_time := (⟨2025, 5, 12, 10, 30⟩ : PyDateTime),
                label := "🔪 Processing" },
       urls := {"https://members.foodcoop.com/shift/9"} } :
      FoodCoopShift).urls ≠ ∅ :=
  ⟨(C9_grouping_invariants
      { dateText := "Mon 05/12/2025",
        shifts := [{ href := "/shift/9/", time := "10:30am",
                     label := "🥕 Food Processing 🔪" }] }
      [{ key := { start_time := ⟨2025, 5, 12, 10, 30⟩,
                  label := "🔪 Processing" },
         urls := {"https://members.foodcoop.com/shift/9"} }] (by decide)).1,
   (C9_grouping_invariants
      { dateText := "Mon 05/12/2025",
        shifts := [{ href := "/shift/9/", time := "10:30am",
                     label := "🥕 Food Processing 🔪" }] }
      [{ key := { start_time := ⟨2025, 5, 12, 10, 30⟩,
                  label := "🔪 Processing" },
         urls := {"https://members.foodcoop.com/shift/9"} }] (by decide)).2.1
      { key := { start_time := ⟨2025, 5, 12, 10, 30⟩,
                 label := "🔪 Processing" },
        urls := {"https://members.foodcoop.com/shift/9"} } (by decide)⟩

theorem find?_shift_of_mem :
    ∀ (l : List FoodCoopShift), ((l.map (fun s => s.key)).Nodup) →
    ∀ s ∈ l, l.find? (fun q => decide (q.key = s.key)) = some s := by
  intro l
  induction l with
  | nil => intro _ s h; cases h
  | cons a rest ih =>
    intro hn s hm
    rw [List.map_cons, List.nodup_cons] at hn
    rcases List.mem_cons.mp hm with rfl | hm2
    · simp [List.find?]
    · have hne : (a.key = s.key) = False := by
        simp only [eq_iff_iff, iff_false]
        intro hEq
        exact hn.1 (hEq ▸ List.mem_map.mpr ⟨s, hm2, rfl⟩)
      have := ih hn.2 s hm2
      simp only [List.find?, hne, decide_False, Bool.false_eq_true]
      simpa using this

theorem parsedLookup_self (shifts : List FoodCoopShift)
    (hnodup : (shifts.map (fun s => s.key)).Nodup) (s : FoodCoopShift)
    (hs : s ∈ shifts) :
    parsedLookup (parsed_shifts_for_key shifts) s.key = some s := by
  rw [parsedLookup_eq_findLast]
  exact find?_shift_of_mem shifts.reverse
    (by rwa [List.map_reverse, List.nodup_reverse]) s
    (List.mem_reverse.mpr hs)

theorem from_event_update (p : FoodCoopShift) (e : Event) :
    FoodCoopShift.from_event (update_event_description p e) =
      { key := { start_time := e.start, label := e.summary },
        urls := (FoodCoopShift.from_event (create_event_from_shift p)).urls } :=
  rfl

theorem readExistingShifts_of_nodup :
    ∀ (events : List Event),
    ((events.map (fun e => (FoodCoopShift.from_event e).key)).Nodup) →
    readExistingShifts events =
      (events.map (fun e => (FoodCoopShift.from_event e, e)), []) := by
  have gen : ∀ (events : List Event)
      (acc : List (FoodCoopShift × Event) × List Event),
      ((acc.1.map (fun se => se.1.key) ++
        events.map (fun e => (FoodCoopShift.from_event e).key)).Nodup) →
      events.foldl readExistingStep acc =
        (acc.1 ++ events.map (fun e => (FoodCoopShift.from_event e, e)),
          acc.2) := by
    intro events
    induction events with
    | nil => intro acc _; simp
    | cons e rest ih =>
      intro acc hn
      show rest.foldl readExistingStep (readExistingStep acc e) = _
      have hkey : (FoodCoopShift.from_event e).key ∉
          acc.1.map (fun se => se.1.key) := by
        intro hmem
        rw [List.map_cons] at hn
        have hd := (List.nodup_append.mp hn).2.2
        exact hd hmem (List.mem_cons_self _ _)
      have hstep : readExistingStep acc e =
          (acc.1 ++ [(FoodCoopShift.from_event e, e)], acc.2) := by
        unfold readExistingStep
        rw [if_neg ?hne]
        case hne =>
          rw [Option.isSome_iff_exists]
          rintro ⟨se, hse⟩
          have hmem := List.mem_of_find?_eq_some hse
          have hk := List.find?_some hse
          simp only [decide_eq_true_eq] at hk
          exact hkey (List.mem_map.mpr ⟨se, hmem, hk⟩)
      rw [hstep, ih]
      · simp
      · rw [List.map_append]
        rw [List.map_cons] at hn
        have : (acc.1.map (fun se => se.1.key) ++
            [((FoodCoopShift.from_event e, e) :
              FoodCoopShift × Event).1.key]) ++
            rest.map (fun e => (FoodCoopShift.from_event e).key) =
            acc.1.map (fun se => se.1.key) ++
            ((FoodCoopShift.from_event e).key ::
              rest.map (fun e => (FoodCoopShift.from_event e).key)) := by
          simp
        rw [show ([((FoodCoopShift.from_event e, e) :
            FoodCoopShift × Event)].map (fun se => se.1.key)) =
            [(FoodCoopShift.from_event e).key] from rfl]
        rw [List.append_assoc, List.singleton_append]
        exact hn
  intro events hn
  show events.foldl readExistingStep ([], []) = _
  rw [gen events ([], []) (by simpa using hn)]
  simp

theorem kept_event_from_event (shifts : List FoodCoopShift)
    (hround : ∀ s ∈ shifts,
      FoodCoopShift.from_event (create_event_from_shift s) = s)
    (se : FoodCoopShift × Event) (p : FoodCoopShift)
    (hfe : se.1 = FoodCoopShift.from_event se.2)
    (hp : parsedLookup (parsed_shifts_for_key shifts) se.1.key = some p) :
    FoodCoopShift.from_event
      (if se.1.urls ≠ p.urls then update_event_description p se.2
       else se.2) = p := by
  obtain ⟨hpmem, hpkey⟩ := parsedLookup_some shifts se.1.key p hp
  by_cases hne : se.1.urls ≠ p.urls
  · rw [if_pos hne, from_event_update]
    rw [hround p hpmem]
    have hkey : ({ start_time := se.2.start, label := se.2.summary } :
        FoodCoopShiftKey) = p.key := by
      rw [hpkey, hfe]
      rfl
    rw [hkey]
  · rw [if_neg hne]
    rw [not_not] at hne
    rw [← hfe]
    calc se.1 = ⟨se.1.key, se.1.urls⟩ := rfl
      _ = ⟨p.key, p.urls⟩ := by rw [hpkey, hne]
      _ = p := rfl

theorem kept_keys (shifts : List FoodCoopShift)
    (hround : ∀ s ∈ shifts,
      FoodCoopShift.from_event (create_event_from_shift s) = s) :
    ∀ (l : List (FoodCoopShift × Event)),
    (∀ se ∈ l, se.1 = FoodCoopShift.from_event se.2) →
    ((l.filterMap (fun se =>
      match parsedLookup (parsed_shifts_for_key shifts) se.1.key with
      | none => none
      | some p => if se.1.urls ≠ p.urls then
          some (update_event_description p se.2) else some se.2)).map
      (fun e => (FoodCoopShift.from_event e).key)) =
      ((l.filter (fun se =>
        (parsedLookup (parsed_shifts_for_key shifts) se.1.key).isSome)).map
        (fun se => se.1.key)) := by
  intro l
  induction l with
  | nil => intro _; rfl
  | cons se rest ih =>
    intro hfe
    have hfe1 : se.1 = FoodCoopShift.from_event se.2 :=
      hfe se (List.mem_cons_self se rest)
    have hrest : ∀ x ∈ rest, x.1 = FoodCoopShift.from_event x.2 :=
      fun x hx => hfe x (List.mem_cons_of_mem se hx)
    rw [List.filterMap_cons, List.filter_cons]
    cases hp : parsedLookup (parsed_shifts_for_key shifts) se.1.key with
    | none =>
      simp only [hp, Option.isSome_none, Bool.false_eq_true, if_false]
      exact ih hrest
    | some p =>
      have hk := kept_event_from_event shifts hround se p hfe1 hp
      have hpkey := (parsedLookup_some shifts se.1.key p hp).2
      rw [show (match some p with
        | none => none
        | some p => if se.1.urls ≠ p.urls then
            some (update_event_description p se.2) else some se.2) =
          some (if se.1.urls ≠ p.urls then update_event_description p se.2
            else se.2) from by
        by_cases h : se.1.urls ≠ p.urls <;> simp [h]]
      simp only [Option.isSome_some, if_true, List.map_cons]
      rw [ih hrest, hk, hpkey]

theorem eventsAfter_from_event (shifts : List FoodCoopShift)
    (events : List Event)
    (hround : ∀ s ∈ shifts,
      FoodCoopShift.from_event (create_event_from_shift s) = s)
    (hnodup : (shifts.map (fun s => s.key)).Nodup) :
    ∀ e ∈ eventsAfterReconcile shifts events,
      parsedLookup (parsed_shifts_for_key shifts)
        ((FoodCoopShift.from_event e).key) =
        some (FoodCoopShift.from_event e) := by
  intro e he
  unfold eventsAfterReconcile at he
  rw [List.mem_append] at he
  rcases he with he | he
  · rw [List.mem_filterMap] at he
    obtain ⟨se, hse, hf⟩ := he
    have hfe1 : se.1 = FoodCoopShift.from_event se.2 :=
      (readExistingShifts_mem events se hse).1
    cases hp : parsedLookup (parsed_shifts_for_key shifts) se.1.key with
    | none => rw [hp] at hf; cases hf
    | some p =>
      rw [hp] at hf
      rw [show (match some p with
        | none => none
        | some p => if se.1.urls ≠ p.urls then
            some (update_event_description p se.2) else some se.2) =
          some (if se.1.urls ≠ p.urls then update_event_description p se.2
            else se.2) from by
        by_cases h : se.1.urls ≠ p.urls <;> simp [h]] at hf
      simp only [Option.some.injEq] at hf
      have hk := kept_event_from_event shifts hround se p hfe1 hp
      rw [hf] at hk
      rw [hk, (parsedLookup_some shifts se.1.key p hp).2]
      exact hp
  · rw [List.mem_map] at he
    obtain ⟨s, hs, hcreate⟩ := he
    have hsmem : s ∈ shifts := List.mem_of_mem_filter hs
    rw [← hcreate, hround s hsmem]
    exact parsedLookup_self shifts hnodup s hsmem

theorem eventsAfter_covers (shifts : List FoodCoopShift)
    (events : List Event)
    (hround : ∀ s ∈ shifts,
      FoodCoopShift.from_event (create_event_from_shift s) = s)
    (hnodup : (shifts.map (fun s => s.key)).Nodup) :
    ∀ s ∈ shifts, ∃ e ∈ eventsAfterReconcile shifts events,
      (FoodCoopShift.from_event e).key = s.key := by
  intro s hs
  unfold eventsAfterReconcile
  cases hex : existingLookup (readExistingShifts events).1 s.key with
  | some se =>
    have hse : se ∈ (readExistingShifts events).1 :=
      List.mem_of_find?_eq_some hex
    have hsekey : se.1.key = s.key := by
      simpa using List.find?_some hex
    have hfe1 : se.1 = FoodCoopShift.from_event se.2 :=
      (readExistingShifts_mem events se hse).1
    have hp : parsedLookup (parsed_shifts_for_key shifts) se.1.key =
        some s := by
      rw [hsekey]
      exact parsedLookup_self shifts hnodup s hs
    have hk := kept_event_from_event shifts hround se s hfe1 hp
    refine ⟨(if se.1.urls ≠ s.urls then update_event_description s se.2
      else se.2), ?_, by rw [hk]⟩
    rw [List.mem_append]
    left
    rw [List.mem_filterMap]
    refine ⟨se, hse, ?_⟩
    rw [hp]
    by_cases h : se.1.urls ≠ s.urls <;> simp [h]
  | none =>
    refine ⟨create_event_from_shift s, ?_, by rw [hround s hs]⟩
    rw [List.mem_append]
    right
    rw [List.mem_map]
    refine ⟨s, ?_, rfl⟩
    show s ∈ shifts.filter (fun s =>
      (existingLookup (readExistingShifts events).1 s.key).isNone)
    rw [List.mem_filter]
    exact ⟨hs, by rw [hex]; rfl⟩

theorem eventsAfter_keys_nodup (shifts : List FoodCoopShift)
    (events : List Event)
    (hround : ∀ s ∈ shifts,
      FoodCoopShift.from_event (create_event_from_shift s) = s)
    (hnodup : (shifts.map (fun s => s.key)).Nodup) :
    ((eventsAfterReconcile shifts events).map
      (fun e => (FoodCoopShift.from_event e).key)).Nodup := by
  unfold eventsAfterReconcile
  rw [List.map_append]
  rw [show (reconcile_shifts_to_google_calendar shifts
      events).existing_shifts_for_key = (readExistingShifts events).1 from rfl,
    show (reconcile_shifts_to_google_calendar shifts events).shifts_to_add =
      shifts.filter (fun s =>
        (existingLookup (readExistingShifts events).1 s.key).isNone) from rfl]
  rw [kept_keys shifts hround _
    (fun se hse => (readExistingShifts_mem events se hse).1)]
  rw [List.nodup_append]
  refine ⟨?_, ?_, ?_⟩
  · exact ((readExistingShifts_keys_nodup events).sublist
      ((List.filter_sublist _).map _))
  · rw [List.map_map]
    have hcongr : ∀ s ∈ shifts.filter (fun s =>
        (existingLookup (readExistingShifts events).1 s.key).isNone),
        ((fun e => (FoodCoopShift.from_event e).key) ∘
          create_event_from_shift) s = s.key := by
      intro s hs
      show (FoodCoopShift.from_event (create_event_from_shift s)).key = s.key
      rw [hround s (List.mem_of_mem_filter hs)]
    rw [List.map_congr_left hcongr]
    exact hnodup.sublist ((List.filter_sublist _).map _)
  · intro k hk1 hk2
    obtain ⟨se, hse, hsek⟩ := List.mem_map.mp hk1
    have hsemem : se ∈ (readExistingShifts events).1 :=
      List.mem_of_mem_filter hse
    have hlook := existingLookup_of_mem (readExistingShifts events).1
      (readExistingShifts_keys_nodup events) se hsemem
    rw [List.map_map] at hk2
    obtain ⟨s, hs, hsk⟩ := List.mem_map.mp hk2
    have hsnone : (existingLookup (readExistingShifts events).1
        s.key).isNone := by simpa using List.of_mem_filter hs
    have hskey : s.key = k := by
      rw [← hsk]
      show s.key = (FoodCoopShift.from_event (create_event_from_shift s)).key
      rw [hround s (List.mem_of_mem_filter hs)]
    rw [hskey, ← hsek, hlook] at hsnone
    cases hsnone

/-! ## Claim C4 -/

/-- Claim C4, as stated, is false: with the scraped set unchanged and
the calendar state being exactly the result of the first run, the
second run is NOT always a no-op.  A URL ending in a character of
`</li>` (here `.../detail`) is corrupted by the description decoding,
so the reconstructed urls set differs from the scraped one and the
second run issues an update (and so does every subsequent run). -/
theorem C4_counterexample :
    (reconcile_shifts_to_google_calendar
      [{ key := { start_time := ⟨2025, 5, 12, 9, 0⟩, label := "🧹 Volunteer" },
         urls := {"https://members.foodcoop.com/a/detail"} }]
      (eventsAfterReconcile
        [{ key := { start_time := ⟨2025, 5, 12, 9, 0⟩,
                    label := "🧹 Volunteer" },
           urls := {"https://members.foodcoop.com/a/detail"} }]
        [])).shifts_to_update.length = 1 := by
  decide

/-- Claim C4 (amended): the second run is a no-op — zero additions, zero
removals, zero updates, and no duplicate events detected — provided
every scraped shift survives the event encoding round-trip
(`from_event (create_event_from_shift s) = s`, which by C1 holds when
labels and URLs are line-break-free and no URL starts or ends with a
marker character) and the scraped list has at most one shift per key.
The initial calendar contents are arbitrary. -/

theorem C4_second_run_no_op (shifts : List FoodCoopShift) (events : List Event)
    (hround : ∀ s ∈ shifts,
      FoodCoopShift.from_event (create_event_from_shift s) = s)
    (hnodup : (shifts.map (fun s => s.key)).Nodup) :
    (reconcile_shifts_to_google_calendar shifts
      (eventsAfterReconcile shifts events)).shifts_to_add = [] ∧
    (reconcile_shifts_to_google_calendar shifts
      (eventsAfterReconcile shifts events)).events_to_remove = [] ∧
    (reconcile_shifts_to_google_calendar shifts
      (eventsAfterReconcile shifts events)).shifts_to_update = [] ∧
    (reconcile_shifts_to_google_calendar shifts
      (eventsAfterReconcile shifts events)).duplicate_events_deleted = [] := by
  have hkeys := eventsAfter_keys_nodup shifts events hround hnodup
  have hread := readExistingShifts_of_nodup _ hkeys
  have hread1 : (readExistingShifts (eventsAfterReconcile shifts events)).1 =
      (eventsAfterReconcile shifts events).map
        (fun e => (FoodCoopShift.from_event e, e)) :=
    congrArg Prod.fst hread
  have hread2 : (readExistingShifts (eventsAfterReconcile shifts events)).2 =
      [] := congrArg Prod.snd hread
  refine ⟨?_, ?_, ?_, ?_⟩
  · show shifts.filter (fun s => (existingLookup
      (readExistingShifts (eventsAfterReconcile shifts events)).1
      s.key).isNone) = []
    rw [List.filter_eq_nil_iff]
    intro s hs
    obtain ⟨e, he, hek⟩ := eventsAfter_covers shifts events hround hnodup s hs
    have hmemf : e ∈ (eventsAfterReconcile shifts events).filter
        (fun e2 => decide ((FoodCoopShift.from_event e2).key = s.key)) :=
      List.mem_filter.mpr ⟨he, by simp [hek]⟩
    have hlook := readExistingShifts_lookup
      (eventsAfterReconcile shifts events) s.key
    cases hh : ((eventsAfterReconcile shifts events).filter
        (fun e2 => decide ((FoodCoopShift.from_event e2).key =
          s.key))).head? with
    | none =>
      rw [List.head?_eq_none_iff] at hh
      rw [hh] at hmemf
      cases hmemf
    | some e0 =>
      rw [hh] at hlook
      simp [hlook]
  · show ((readExistingShifts (eventsAfterReconcile shifts
      events)).1.filter (fun se => (parsedLookup
        (parsed_shifts_for_key shifts) se.1.key).isNone)).map
      (fun se => se.2) = []
    rw [hread1]
    rw [List.filter_eq_nil_iff.mpr ?hnone]
    · rfl
    case hnone =>
      intro se hse
      obtain ⟨e, he, hpair⟩ := List.mem_map.mp hse
      have hp := eventsAfter_from_event shifts events hround hnodup e he
      rw [← hpair]
      simp [hp]
  · show (readExistingShifts (eventsAfterReconcile shifts
      events)).1.filterMap (fun se =>
        match parsedLookup (parsed_shifts_for_key shifts) se.1.key with
        | some p => if se.1.urls ≠ p.urls then some (p, se.2) else none
        | none => none) = []
    rw [hread1]
    rw [List.filterMap_eq_nil_iff]
    intro se hse
    obtain ⟨e, he, hpair⟩ := List.mem_map.mp hse
    have hp := eventsAfter_from_event shifts events hround hnodup e he
    rw [← hpair]
    simp only
    rw [hp]
    simp
  · show (readExistingShifts (eventsAfterReconcile shifts events)).2 = []
    exact hread2

/-- Witness for `C4_second_run_no_op` at a concrete clean shift list and
an empty initial calendar. -/
theorem C4_second_run_no_op_witness :
    (reconcile_shifts_to_google_calendar
      [{ key := { start_time := ⟨2025, 5, 12, 9, 0⟩, label := "🧹 Volunteer" },
         urls := {"https://members.foodcoop.com/a"} }]
      (eventsAfterReconcile
        [{ key := { start_time := ⟨2025, 5, 12, 9, 0⟩,
                    label := "🧹 Volunteer" },
           urls := {"https://members.foodcoop.com/a"} }]
        [])).shifts_to_add = [] ∧
    (reconcile_shifts_to_google_calendar
      [{ key := { start_time := ⟨2025, 5, 12, 9, 0⟩, label := "🧹 Volunteer" },
         urls := {"https://members.foodcoop.com/a"} }]
      (eventsAfterReconcile
        [{ key := { start_time := ⟨2025, 5, 12, 9, 0⟩,
                    label := "🧹 Volunteer" },
           urls := {"https://members.foodcoop.com/a"} }]
        [])).events_to_remove = [] ∧
    (reconcile_shifts_to_google_calendar
      [{ key := { start_time := ⟨2025, 5, 12, 9, 0⟩, label := "🧹 Volunteer" },
         urls := {"https://members.foodcoop.com/a"} }]
      (eventsAfterReconcile
        [{ key := { start_time := ⟨2025, 5, 12, 9, 0⟩,
                    label := "🧹 Volunteer" },
           urls := {"https://members.foodcoop.com/a"} }]
        [])).shifts_to_update = [] ∧
    (reconcile_shifts_to_google_calendar
      [{ key := { start_time := ⟨2025, 5, 12, 9, 0⟩, label := "🧹 Volunteer" },
         urls := {"https://members.foodcoop.com/a"} }]
      (eventsAfterReconcile
        [{ key := { start_time := ⟨2025, 5, 12, 9, 0⟩,
                    label := "🧹 Volunteer" },
           urls := {"https://members.foodcoop.com/a"} }]
        [])).duplicate_events_deleted = [] :=
  C4_second_run_no_op
    [{ key := { start_time := ⟨2025, 5, 12, 9, 0⟩, label := "🧹 Volunteer" },
       urls := {"https://members.foodcoop.com/a"} }] []
    (by decide) (by decide)
